import Mathlib

/-!
Verification of the ES-options risk-neutral-density (RND) pipeline.

The Python source is shallowly embedded: numpy arrays become `List α` over a
linear ordered field `α` (instantiated at `ℚ` for concrete evaluation and at
`ℝ` when transcendental functions are involved), numpy vectorised operations
become list maps/zips, and `np.exp` / `np.log` / `np.sqrt` become explicit
function parameters (instantiated with `Real.exp` etc. at `ℝ`).
-/

namespace ESOptions

section Defs

variable {α : Type} [LinearOrderedField α]

/-- Helper for the composite trapezoidal rule: accumulates
`(x_{i+1} - x_i) * (y_i + y_{i+1}) / 2` along the two lists, carrying the
previous point `(y0, x0)`. -/
def trapzAux : α → α → List α → List α → α
  | _, _, [], _ => 0
  | _, _, _ :: _, [] => 0
  | y0, x0, y1 :: ys, x1 :: xs => (x1 - x0) * (y0 + y1) / 2 + trapzAux y1 x1 ys xs

/-- Embedding of `np.trapz(y, x)`: composite trapezoidal rule over a possibly
non-uniform grid `x`. -/
def trapz : List α → List α → α
  | y0 :: ys, x0 :: xs => trapzAux y0 x0 ys xs
  | _, _ => 0

/-- Embedding of `normalize_density` from `es_options/utils/math_utils.py`:
clip the density at `1e-10`, divide by its trapezoidal integral, and fall back
to the uniform density `1 / (x[-1] - x[0])` when the integral is non-positive. -/
def normalize_density (density x : List α) : List α :=
  let d := density.map (fun v => max v (1 / 10 ^ 10))
  let integral := trapz d x
  if 0 < integral then d.map (fun v => v / integral)
  else density.map (fun _ => 1 / (x.getLastD 0 - x.headD 0))

/-- Embedding of `np.linspace(a, b, n)`: `n` uniformly spaced points from `a`
to `b` inclusive. -/
def linspace (a b : α) (n : ℕ) : List α :=
  List.map (fun i : ℕ => a + (i : α) * (b - a) / ((n : α) - 1)) (List.range n)

/-- Model of `SmoothingResult` from `es_options/processing/smoothing.py`.
The scipy `UnivariateSpline` handle is modelled by the pair of its first and
second derivative functions in log-strike (the only way the extractor uses
it), `None` when absent. -/
structure SmoothingResult (α : Type) where
  strikes : List α
  prices : List α
  smooth_fn : α → α
  spot_price : α
  strike_min : α
  strike_max : α
  spline : Option ((α → α) × (α → α))

/-- Embedding of `SmoothingResult.get_strike_grid`. -/
def SmoothingResult.get_strike_grid (sm : SmoothingResult α) (num_points : ℕ) : List α :=
  linspace sm.strike_min sm.strike_max num_points

/-- Embedding of `RNDExtractor._finite_diff_2nd`: centered second differences
with step `strikes[1] - strikes[0]`; the first and last entries copy the
nearest interior stencil. -/
def finite_diff_2nd (C : α → α) (strikes : List α) : List α :=
  let dK := strikes.getD 1 0 - strikes.getD 0 0
  let prices := List.map C strikes
  let n := strikes.length
  List.map (fun i : ℕ =>
    if i = 0 then (prices.getD 2 0 - 2 * prices.getD 1 0 + prices.getD 0 0) / dK ^ 2
    else if i = n - 1 then
      (prices.getD (n - 1) 0 - 2 * prices.getD (n - 2) 0 + prices.getD (n - 3) 0) / dK ^ 2
    else (prices.getD (i + 1) 0 - 2 * prices.getD i 0 + prices.getD (i - 1) 0) / dK ^ 2)
    (List.range n)

/-- Embedding of `RNDExtractor._compute_density`: Breeden–Litzenberger via the
spline's log-strike derivatives when the handle is present (chain rule
`(d2 - d1) / K²`), finite differences otherwise, then discount scaling and
`normalize_density`. `exp_fn` and `log_fn` stand for `np.exp` / `np.log`. -/
def compute_density (exp_fn log_fn : α → α) (spline : Option ((α → α) × (α → α)))
    (C : α → α) (strikes : List α) (r T : α) : List α :=
  let d2C := match spline with
    | some s => List.map (fun K => (s.2 (log_fn K) - s.1 (log_fn K)) / K ^ 2) strikes
    | none => finite_diff_2nd C strikes
  normalize_density (List.map (fun v => exp_fn (r * T) * v) d2C) strikes

/-- Embedding of `compute_density_moments` from `math_utils.py`
(`sqrt_fn` stands for `np.sqrt`). Returns (mean, std, skewness, kurtosis). -/
def compute_density_moments (sqrt_fn : α → α) (density x : List α) : α × α × α × α :=
  let mean := trapz (List.zipWith (fun xi di => xi * di) x density) x
  let variance := trapz (List.zipWith (fun xi di => (xi - mean) ^ 2 * di) x density) x
  let std := sqrt_fn (max variance 0)
  if 0 < std then
    (mean, std,
      trapz (List.zipWith (fun xi di => (xi - mean) ^ 3 * di) x density) x / std ^ 3,
      trapz (List.zipWith (fun xi di => (xi - mean) ^ 4 * di) x density) x / std ^ 4 - 3)
  else (mean, std, 0, 0)

/-- Model of `RNDResult` (expiry as an integer day number). -/
structure RNDResult (α : Type) where
  strikes : List α
  density : List α
  expiry : ℤ
  time_to_expiry : α
  spot_price : α
  mean : α
  std : α
  skewness : α
  kurtosis : α

/-- Embedding of `RNDExtractor.extract`: time to expiry `T = days / 365`,
`ValueError` when `T ≤ 0`, uniform strike grid, density via
`_compute_density`, moments attached. -/
def RNDExtractor.extract (exp_fn log_fn sqrt_fn : α → α) (r : α) (num_points : ℕ)
    (sm : SmoothingResult α) (expiry trade_date : ℤ) : Except String (RNDResult α) :=
  let T : α := ((expiry - trade_date : ℤ) : α) / 365
  if T ≤ 0 then Except.error "expired"
  else
    let strikes := sm.get_strike_grid num_points
    let density := compute_density exp_fn log_fn sm.spline sm.smooth_fn strikes r T
    let m := compute_density_moments sqrt_fn density strikes
    Except.ok ⟨strikes, density, expiry, T, sm.spot_price, m.1, m.2.1, m.2.2.1, m.2.2.2⟩

/-- Accumulator for `np.cumsum`. -/
def cumsumAux (acc : α) : List α → List α
  | [] => []
  | v :: vs => (acc + v) :: cumsumAux (acc + v) vs

/-- Embedding of `np.cumsum`. -/
def cumsum (l : List α) : List α := cumsumAux 0 l

/-- Embedding of `np.interp(v, xp, fp)` for increasing `xp`: clamp below the
first node and above the last, linear interpolation in between. -/
def interp (v : α) : List α → List α → α
  | x0 :: x1 :: xs, f0 :: f1 :: fs =>
      if v ≤ x0 then f0
      else if v ≤ x1 then f0 + (f1 - f0) * (v - x0) / (x1 - x0)
      else interp v (x1 :: xs) (f1 :: fs)
  | _ :: _, f0 :: _ => f0
  | _, _ => 0

/-- The CDF built inside `compute_quantiles` from `math_utils.py`:
`cdf = np.cumsum(density) * dx` with `dx = x[1] - x[0]`, rescaled by its last
entry when that is positive. -/
def internal_cdf (density x : List α) : List α :=
  let dx := x.getD 1 0 - x.getD 0 0
  let cdf0 := List.map (fun c => c * dx) (cumsum density)
  if 0 < cdf0.getLastD 0 then List.map (fun c => c / cdf0.getLastD 0) cdf0 else cdf0

/-- Embedding of `compute_quantiles`: invert the cumulative-sum CDF at each
requested probability with `np.interp`. -/
def compute_quantiles (density x qs : List α) : List α :=
  List.map (fun q => interp q (internal_cdf density x) x) qs

/-- Embedding of `RNDResult.probability_below`: trapezoidal integral of the
density over the strikes that do not exceed `K`; `0.0` when the mask is
empty. -/
def probability_below (density strikes : List α) (K : α) : α :=
  let pairs := List.filter (fun p => p.1 ≤ K) (List.zip strikes density)
  if pairs.isEmpty then 0
  else trapz (List.map Prod.snd pairs) (List.map Prod.fst pairs)

/-- Embedding of `RNDResult.probability_above`. -/
def probability_above (density strikes : List α) (K : α) : α :=
  1 - probability_below density strikes K

/-- Embedding of the closure `smooth_fn` returned by `CallPriceSmoother.fit`:
`np.maximum(spline(np.clip(np.log(np.maximum(K, 1e-10)), log_k_min,
log_k_max)), 0)` with `log_k_min/max` the log of the strike bounds
(`log_fn` stands for `np.log`, `spline_val` for spline evaluation). -/
def fit_smooth_fn (log_fn spline_val : α → α) (k_min k_max : α) (K : α) : α :=
  max (spline_val (min (max (log_fn (max K (1 / 10 ^ 10))) (log_fn k_min))
    (log_fn k_max))) 0

/-- Option right: call or put. -/
inductive OptRight
  | call
  | put
deriving DecidableEq

/-- One row of the options-chain DataFrame (the columns the cleaner touches;
`mid` and `dte` are materialised fields guarded by the frame's column
flags). -/
structure OptionRow (α : Type) where
  expiry : ℤ
  strike : α
  right : OptRight
  bid : α
  ask : α
  volume : ℤ
  open_interest : ℤ
  mid : α
  dte : ℤ

/-- A pandas DataFrame of option rows; `hasMid` / `hasDte` model whether the
`mid` / `dte` columns have been materialised. -/
structure Frame (α : Type) where
  rows : List (OptionRow α)
  hasMid : Bool
  hasDte : Bool

/-- `df["mid"] = (df["bid"] + df["ask"]) / 2` on one row. -/
def computeMid (q : OptionRow α) : OptionRow α :=
  { q with mid := (q.bid + q.ask) / 2 }

/-- Source of an OTM row: a real call quote or a put converted through
put–call parity. -/
inductive OtmSource
  | call
  | put_synthetic
deriving DecidableEq

/-- One row of the OTM synthetic-call chain built by `build_otm_chain`. -/
structure OtmRow (α : Type) where
  expiry : ℤ
  strike : α
  mid : α
  src : OtmSource

/-- First-occurrence deduplication, as `pandas.Series.unique` does for the
expiry column. -/
def dedupFirst : List ℤ → List ℤ
  | [] => []
  | a :: t => a :: dedupFirst (t.filter (fun b => decide (b ≠ a)))
termination_by l => l.length
decreasing_by
  simp only [List.length_cons]
  exact Nat.lt_succ_of_le (List.length_filter_le _ _)

/-- The ATM add-back loop of `build_otm_chain`: walk the ATM-band calls and
append each one whose strike is not already present in the accumulated
result. -/
def atm_fold (e : ℤ) : List (OptionRow α) → List (OtmRow α) → List (OtmRow α)
  | [], acc => acc
  | q :: qs, acc =>
      atm_fold e qs
        (if (acc.filter (fun w => decide (w.strike = q.strike))).isEmpty
         then acc ++ [⟨e, q.strike, q.mid, OtmSource.call⟩] else acc)

/-- The per-expiry body of `build_otm_chain`: OTM calls (`K > spot`) taken
directly, OTM puts (`K < spot`) converted via parity
`C = P + S - K e^{-rT}` and kept when positive, then the ATM add-back loop
over calls with `0.99 spot ≤ K ≤ 1.01 spot` (`exp_fn` stands for `np.exp`;
`T = dte/365` with `dte` read off the first row of the expiry group). -/
def build_otm_expiry (exp_fn : α → α) (spot r : α) (e : ℤ)
    (exp_rows : List (OptionRow α)) : List (OtmRow α) :=
  match exp_rows.head? with
  | none => []
  | some q0 =>
    let T : α := (q0.dte : α) / 365
    let otm_calls := exp_rows.filter
      (fun q => decide (q.right = OptRight.call ∧ spot < q.strike))
    let call_rows := otm_calls.map
      (fun q => (⟨e, q.strike, q.mid, OtmSource.call⟩ : OtmRow α))
    let otm_puts := exp_rows.filter
      (fun q => decide (q.right = OptRight.put ∧ q.strike < spot))
    let put_rows := otm_puts.filterMap (fun q =>
      let c := q.mid + spot - q.strike * exp_fn (-(r * T))
      if 0 < c then some (⟨e, q.strike, c, OtmSource.put_synthetic⟩ : OtmRow α)
      else none)
    let atm_calls := exp_rows.filter
      (fun q => decide (q.right = OptRight.call ∧ spot * (99 / 100) ≤ q.strike ∧
        q.strike ≤ spot * (101 / 100)))
    atm_fold e atm_calls (call_rows ++ put_rows)

/-- Lexicographic order on ((expiry, strike)) used by
`sort_values(["expiry", "strike"])`. -/
def otmLe (w v : OtmRow α) : Prop :=
  w.expiry < v.expiry ∨ (w.expiry = v.expiry ∧ w.strike ≤ v.strike)

instance : DecidableRel (otmLe (α := α)) := fun w v => by
  unfold otmLe
  infer_instance

/-- Embedding of `ChainCleaner.build_otm_chain` (without the quality-metrics
return): per-expiry OTM construction over the first-occurrence expiry order,
then sort by (expiry, strike). The missing-`dte` `ValueError` becomes an
`Except.error`. -/
def build_otm_chain (exp_fn : α → α) (chain : Frame α) (spot r : α) :
    Except String (List (OtmRow α)) :=
  if chain.rows.isEmpty then Except.ok []
  else
    let rows := if ¬chain.hasMid then List.map computeMid chain.rows else chain.rows
    if ¬chain.hasDte then Except.error "Chain must have dte column. Run clean() first."
    else
      let expiries := dedupFirst (List.map (fun q => q.expiry) rows)
      let results := expiries.bind (fun e =>
        build_otm_expiry exp_fn spot r e (rows.filter (fun q => decide (q.expiry = e))))
      Except.ok (List.insertionSort otmLe results)

/-- `np.max` over a list (default for the empty case; numpy raises there). -/
def nmax {β : Type} [Max β] (d : β) : List β → β
  | [] => d
  | a :: t => t.foldl max a

/-- `np.min` over a list. -/
def nmin {β : Type} [Min β] (d : β) : List β → β
  | [] => d
  | a :: t => t.foldl min a

/-- Consecutive differences, as `np.diff`. -/
def diffs : List α → List α
  | a :: b :: t => (b - a) :: diffs (b :: t)
  | _ => []

/-- Model of the `ChainQualityMetrics` dataclass of `chain_cleaner.py`. -/
structure ChainQualityMetrics (α : Type) where
  num_raw : ℕ
  num_after_clean : ℕ
  num_otm : ℕ
  num_calls : ℕ
  num_puts_synthetic : ℕ
  strikes : List α
  spot : α

/-- `strike_coverage = (strikes.max() - strikes.min()) / spot`. -/
def ChainQualityMetrics.strike_coverage (m : ChainQualityMetrics α) : α :=
  (nmax 0 m.strikes - nmin 0 m.strikes) / m.spot

/-- `max_strike_gap = np.diff(np.sort(strikes)).max()`, `0` for fewer than two
strikes. -/
def ChainQualityMetrics.max_strike_gap (m : ChainQualityMetrics α) : α :=
  if m.strikes.length < 2 then 0
  else nmax 0 (diffs (List.insertionSort (· ≤ ·) m.strikes))

/-- Embedding of `ChainQualityMetrics.quality_score`: the weighted average
`0.3 n + 0.3 cov + 0.2 gap + 0.2 balance` of the four sub-scores. -/
def ChainQualityMetrics.quality_score (m : ChainQualityMetrics α) : α :=
  let n_score := min ((m.num_otm : α) / 30) 1
  let cov_score := min (m.strike_coverage / (6 / 10)) 1
  let gap_score := max 0 (1 - (m.max_strike_gap - 5) / 45)
  let balance_score :=
    if 0 < m.num_otm then
      min (((min m.num_calls m.num_puts_synthetic : ℕ) : α) / ((m.num_otm : α) / 2)) 1
    else 0
  3 / 10 * n_score + 3 / 10 * cov_score + 2 / 10 * gap_score + 2 / 10 * balance_score

/-- Configurable thresholds of `ChainCleaner`. -/
structure CleanCfg (α : Type) where
  min_volume : ℤ
  min_oi : ℤ
  max_spread_pct : α
  min_dte : ℤ
  max_dte : ℤ

/-- Python-level aliasing state for a `clean`/`build_otm_chain` call: the
caller's `chain` object, the local `df`, and whether `df` currently aliases
`chain` (an in-place column write through an alias would be visible to the
caller). -/
structure PdState (α : Type) where
  chain : Frame α
  df : Frame α
  aliased : Bool

/-- In-place column assignment `df[col] = ...`: mutates `df`, and mutates the
caller's frame too when `df` aliases it. -/
def assignCol (f : Frame α → Frame α) (s : PdState α) : PdState α :=
  { s with df := f s.df, chain := if s.aliased then f s.chain else s.chain }

/-- Rebinding `df = <new frame>(df)`: the name now refers to a freshly
allocated frame, so any alias to the caller's frame is dropped. -/
def rebindDf (f : Frame α → Frame α) (s : PdState α) : PdState α :=
  { s with df := f s.df, aliased := false }

/-- `df["mid"] = (df["bid"] + df["ask"]) / 2`. -/
def midFill : Frame α → Frame α :=
  fun fr => { fr with rows := fr.rows.map computeMid, hasMid := true }

/-- `df = df[(df.bid <= df.ask) & (df.bid >= 0) & (df.ask > 0)]`. -/
def validFilter : Frame α → Frame α :=
  fun fr => { fr with
    rows := (fr.rows.filter (fun q => decide (q.bid ≤ q.ask ∧ 0 ≤ q.bid ∧ 0 < q.ask))) }

/-- `df = df[df.volume >= min_volume]`. -/
def volumeFilter (v : ℤ) : Frame α → Frame α :=
  fun fr => { fr with rows := fr.rows.filter (fun q => decide (v ≤ q.volume)) }

/-- `df = df[df.open_interest >= min_oi]`. -/
def oiFilter (v : ℤ) : Frame α → Frame α :=
  fun fr => { fr with rows := fr.rows.filter (fun q => decide (v ≤ q.open_interest)) }

/-- Spread filter `(ask - bid) / mid <= max_spread_pct`, with `mid == 0`
replaced by NaN so that those rows are dropped. -/
def spreadFilter (p : α) : Frame α → Frame α :=
  fun fr => { fr with
    rows := (fr.rows.filter (fun q => decide (q.mid ≠ 0 ∧ (q.ask - q.bid) / q.mid ≤ p))) }

/-- `df["dte"] = (df.expiry - trade_date).dt.days`. -/
def dteAssign (td : ℤ) : Frame α → Frame α :=
  fun fr => { fr with
    rows := (fr.rows.map (fun q => { q with dte := q.expiry - td }))
    hasDte := true }

/-- `df = df[(df.dte >= min_dte) & (df.dte <= max_dte)]`. -/
def dteFilter (lo hi : ℤ) : Frame α → Frame α :=
  fun fr => { fr with
    rows := (fr.rows.filter (fun q => decide (lo ≤ q.dte ∧ q.dte ≤ hi))) }

/-- Embedding of `ChainCleaner.clean` as a state transformer: returns the
empty chain itself when the input is empty, otherwise works on
`df = chain.copy()` (non-aliased), assigning the `mid` column in place when
missing, filtering, and (when a trade date is supplied) assigning the `dte`
column in place and filtering on it; the final `reset_index(drop=True)`
allocates a new frame. -/
def cleanState (cfg : CleanCfg α) (trade_date : Option ℤ) (chain : Frame α) :
    PdState α :=
  if chain.rows.isEmpty then ⟨chain, chain, true⟩
  else
    let s := PdState.mk chain chain false
    let s := if ¬s.df.hasMid then assignCol midFill s else s
    let s := rebindDf validFilter s
    let s := if 0 < cfg.min_volume then rebindDf (volumeFilter cfg.min_volume) s else s
    let s := if 0 < cfg.min_oi then rebindDf (oiFilter cfg.min_oi) s else s
    let s := if 0 < cfg.max_spread_pct then
      rebindDf (spreadFilter cfg.max_spread_pct) s else s
    let s := match trade_date with
      | some td => rebindDf (dteFilter cfg.min_dte cfg.max_dte) (assignCol (dteAssign td) s)
      | none => s
    rebindDf (fun fr => fr) s

/-- The returned cleaned frame. -/
def ChainCleaner.clean (cfg : CleanCfg α) (chain : Frame α)
    (trade_date : Option ℤ) : Frame α :=
  (cleanState cfg trade_date chain).df

/-- The state effect of `ChainCleaner.build_otm_chain` on its input frame:
after the early empty return, only `df = chain.copy()` and the in-place `mid`
fill touch frames; the rest of the function reads `df` and allocates the
result from scratch. -/
def buildOtmState (chain : Frame α) : PdState α :=
  if chain.rows.isEmpty then ⟨chain, chain, true⟩
  else
    let s := PdState.mk chain chain false
    if ¬s.df.hasMid then assignCol midFill s else s

/-- `chain["strike"].median()`: sorted middle value, mean of the two middle
values for an even count. -/
def medianStrike (rows : List (OptionRow α)) : α :=
  let s := List.insertionSort (· ≤ ·) (List.map (fun q => q.strike) rows)
  let n := s.length
  if n % 2 = 1 then s.getD (n / 2) 0
  else (s.getD (n / 2 - 1) 0 + s.getD (n / 2) 0) / 2

/-- Model of `RNDPipelineResult`. -/
structure RNDPipelineResult (α : Type) where
  rnd_results : List (RNDResult α)
  smoothing_results : List (ℤ × SmoothingResult α)
  num_expiries : ℕ
  success : Bool
  errors : List String

/-- `RNDPipeline._error_result`: empty results, `success=False`, a single
error string. -/
def errorResult (msg : String) : RNDPipelineResult α :=
  ⟨[], [], 0, false, [msg]⟩

/-- One iteration of the per-expiry loop of `RNDPipeline.run`: skip silently
under 10 OTM rows, record `"{expiry}: {reason}"` when the smoother fails, a
non-fatal arbitrage warning, then RND extraction (whose failure is also
recorded as `"{expiry}: {reason}"` after the warning, exactly as the shared
`try` block does). The scipy spline fit and the arbitrage checker are the
`fit` / `arb` parameters. Returns (messages, smoothing entry, RND). -/
def processExpiry (fit : List (OtmRow α) → Except String (SmoothingResult α))
    (arb : SmoothingResult α → Bool × ℕ)
    (exp_fn log_fn sqrt_fn : α → α) (r : α) (num_points : ℕ)
    (trade_date : ℤ) (otm : List (OtmRow α)) (e : ℤ) :
    List String × Option (ℤ × SmoothingResult α) × Option (RNDResult α) :=
  let data := otm.filter (fun w => decide (w.expiry = e))
  if data.length < 10 then ([], none, none)
  else
    match fit data with
    | Except.error msg => ([s!"{e}: {msg}"], none, none)
    | Except.ok sm =>
      let a := arb sm
      let warns := if a.1 then ([] : List String) else [s!"{e}: {a.2} arb violations"]
      match RNDExtractor.extract exp_fn log_fn sqrt_fn r num_points sm e trade_date with
      | Except.error msg => (warns ++ [s!"{e}: {msg}"], some (e, sm), none)
      | Except.ok rnd => (warns, some (e, sm), some rnd)

/-- `sorted(otm_chain["expiry"].unique())`. -/
def sortedExpiries (otm : List (OtmRow α)) : List ℤ :=
  List.insertionSort (· ≤ ·) (dedupFirst (List.map (fun w => w.expiry) otm))

/-- Embedding of `RNDPipeline.run`: fetch (the client's outcome is the
`chainRes` parameter), empty-chain failure, spot resolution (parameter, then
client spot, then median strike), clean, OTM build, the per-expiry loop, and
whole-run failure only when no RND was produced. The `build_otm_chain` error
branch is unreachable because `clean` materialised the `dte` column. -/
def RNDPipeline.run
    (fit : List (OtmRow α) → Except String (SmoothingResult α))
    (arb : SmoothingResult α → Bool × ℕ)
    (exp_fn log_fn sqrt_fn : α → α) (cfg : CleanCfg α) (r : α) (num_points : ℕ)
    (chainRes : Except String (Frame α)) (client_spot spot_param : Option α)
    (trade_date : ℤ) : RNDPipelineResult α :=
  match chainRes with
  | Except.error msg => errorResult s!"Failed to fetch chain: {msg}"
  | Except.ok chain =>
    if chain.rows.isEmpty then errorResult "Empty chain returned"
    else
      let spot := spot_param.getD (client_spot.getD (medianStrike chain.rows))
      let clean_chain := ChainCleaner.clean cfg chain (some trade_date)
      if clean_chain.rows.isEmpty then errorResult "No valid options after cleaning"
      else
        match build_otm_chain exp_fn clean_chain spot r with
        | Except.error msg => errorResult msg
        | Except.ok otm =>
          if otm.isEmpty then errorResult "No valid OTM options"
          else
            let expiries := sortedExpiries otm
            let step := processExpiry fit arb exp_fn log_fn sqrt_fn r num_points
              trade_date otm
            let errs := expiries.bind (fun e => (step e).1)
            let smoothing := expiries.filterMap (fun e => (step e).2.1)
            let rnds := expiries.filterMap (fun e => (step e).2.2)
            if rnds.isEmpty then errorResult "No RNDs extracted"
            else ⟨rnds, smoothing, rnds.length, true, errs⟩

/-- A minimal smoothing result used to exercise the pipeline theorem. -/
def c5sm : SmoothingResult ℚ := ⟨[1, 2], [1, 1], fun _ => 0, 100, 1, 2, none⟩

/-- A fit stub failing on expiry 200 and succeeding otherwise. -/
def c5fit : List (OtmRow ℚ) → Except String (SmoothingResult ℚ) := fun data =>
  match data.head? with
  | some w => if w.expiry = 200 then Except.error "boom" else Except.ok c5sm
  | none => Except.error "no data"

def c5arb : SmoothingResult ℚ → Bool × ℕ := fun _ => (true, 0)

def c5cfg : CleanCfg ℚ := ⟨0, 0, 0, 1, 365⟩

def c5row (e : ℤ) (k : ℚ) : OptionRow ℚ := ⟨e, k, OptRight.call, 2, 2, 50, 500, 0, 0⟩

def c5chain : Frame ℚ :=
  ⟨[c5row 100 101, c5row 100 102, c5row 100 103, c5row 100 104, c5row 100 105,
    c5row 100 106, c5row 100 107, c5row 100 108, c5row 100 109, c5row 100 110,
    c5row 200 101, c5row 200 102, c5row 200 103, c5row 200 104, c5row 200 105,
    c5row 200 106, c5row 200 107, c5row 200 108, c5row 200 109, c5row 200 110],
   false, false⟩

def c5crow (e : ℤ) (k : ℚ) : OptionRow ℚ := ⟨e, k, OptRight.call, 2, 2, 50, 500, 2, e⟩

def c5orow (e : ℤ) (k : ℚ) : OtmRow ℚ := ⟨e, k, 2, OtmSource.call⟩

def c5otm : List (OtmRow ℚ) :=
  [c5orow 100 101, c5orow 100 102, c5orow 100 103, c5orow 100 104, c5orow 100 105,
   c5orow 100 106, c5orow 100 107, c5orow 100 108, c5orow 100 109, c5orow 100 110,
   c5orow 200 101, c5orow 200 102, c5orow 200 103, c5orow 200 104, c5orow 200 105,
   c5orow 200 106, c5orow 200 107, c5orow 200 108, c5orow 200 109, c5orow 200 110]

def c8r1 : RNDResult ℚ := ⟨[0, 1], [2, 3], 0, 10, 100, 0, 0, 0, 0⟩

def c8r2 : RNDResult ℚ := ⟨[0, 1], [4, 5], 0, 20, 100, 0, 0, 0, 0⟩

end Defs

section SurfaceDefs

variable {α : Type} [LinearOrderedField α] [FloorRing α]

/-- Python `int()`: truncation toward zero. -/
def pyInt (x : α) : ℤ := if x < 0 then -⌊-x⌋ else ⌊x⌋

/-- The `rnd_by_dte` dict of the surface plotter, keyed by
`int(r.time_to_expiry * 365)`; on duplicate keys the last result wins. -/
def rnd_by_dte (rnds : List (RNDResult α)) (t : ℤ) : Option (RNDResult α) :=
  (rnds.filter (fun r => decide (pyInt (r.time_to_expiry * 365) = t))).getLast?

/-- `actual_dtes = sorted(rnd_by_dte.keys())`. -/
def actual_dtes (rnds : List (RNDResult α)) : List ℤ :=
  List.insertionSort (· ≤ ·)
    (dedupFirst (List.map (fun r => pyInt (r.time_to_expiry * 365)) rnds))

/-- `np.interp(strike_grid, rnd.strikes, rnd.density)`. -/
def interp_density (grid : List α) (r : RNDResult α) : List α :=
  List.map (fun v => interp v r.strikes r.density) grid

/-- One column of the RND surface at target DTE `d`: the interpolation branch
of `RNDSurfacePlotter.plot_from_results` / `plot_density_heatmap` — copy the
earliest density at or below the smallest actual DTE, the latest at or above
the largest, otherwise blend the two bracketing expiries linearly with weight
`(d - lower) / (upper - lower)` on the common grid. -/
def surfaceColumn (rnds : List (RNDResult α)) (grid : List α) (d : α) : List α :=
  let dtes := actual_dtes rnds
  match dtes.head?, dtes.getLast? with
  | some lo0, some hiN =>
    if d ≤ (lo0 : α) then
      match rnd_by_dte rnds lo0 with
      | some r => interp_density grid r
      | none => []
    else if (hiN : α) ≤ d then
      match rnd_by_dte rnds hiN with
      | some r => interp_density grid r
      | none => []
    else
      let lower : ℤ := nmax 0 (dtes.filter (fun t => decide ((t : α) ≤ d)))
      let upper : ℤ := nmin 0 (dtes.filter (fun t => decide (d ≤ (t : α))))
      if lower = upper then
        match rnd_by_dte rnds lower with
        | some r => interp_density grid r
        | none => []
      else
        match rnd_by_dte rnds lower, rnd_by_dte rnds upper with
        | some rl, some rh =>
          List.zipWith
            (fun zl zh => (1 - (d - (lower : α)) / ((upper : α) - (lower : α))) * zl
              + (d - (lower : α)) / ((upper : α) - (lower : α)) * zh)
            (interp_density grid rl) (interp_density grid rh)
        | _, _ => []
  | _, _ => []

end SurfaceDefs

section Proofs

variable {α : Type} [LinearOrderedField α]

lemma trapzAux_nil_right (y0 x0 : α) (ys : List α) : trapzAux y0 x0 ys [] = 0 := by
  cases ys <;> rfl

lemma length_linspace (a b : α) (n : ℕ) : (linspace a b n).length = n := by
  rw [linspace, List.length_map, List.length_range]

/-- Along a strictly increasing tail, the accumulated last element stays
strictly above the starting point. -/
lemma lt_getLastD_of_chain {x0 : α} {xs : List α}
    (h : List.Chain (· < ·) x0 xs) (hne : xs ≠ []) : x0 < xs.getLastD x0 := by
  induction xs generalizing x0 with
  | nil => exact absurd rfl hne
  | cons x1 xs ih =>
    rw [List.chain_cons] at h
    rw [List.getLastD_cons]
    cases xs with
    | nil => simpa using h.1
    | cons a l => exact h.1.trans (ih h.2 (by simp))

/-- Lower bound for the trapezoidal accumulator: if every ordinate is at least
`c ≥ 0` and the abscissae are non-decreasing, the sum is at least
`c * (last - first)`. -/
lemma trapzAux_ge {c : α} (hc : 0 ≤ c) :
    ∀ (ys xs : List α) (y0 x0 : α), ys.length = xs.length →
    (∀ v ∈ y0 :: ys, c ≤ v) → List.Chain (· ≤ ·) x0 xs →
    c * (xs.getLastD x0 - x0) ≤ trapzAux y0 x0 ys xs := by
  intro ys
  induction ys with
  | nil =>
    intro xs y0 x0 hlen _ _
    have : xs = [] := List.length_eq_zero.mp hlen.symm
    subst this
    simp [trapzAux]
  | cons y1 ys ih =>
    intro xs y0 x0 hlen hy hchain
    cases xs with
    | nil => simp at hlen
    | cons x1 xs =>
      rw [List.chain_cons] at hchain
      have hy0 : c ≤ y0 := hy y0 (by simp)
      have hy1 : c ≤ y1 := hy y1 (by simp)
      have hterm : c * (x1 - x0) ≤ (x1 - x0) * (y0 + y1) / 2 := by
        have h2c : c + c ≤ y0 + y1 := add_le_add hy0 hy1
        have hx : 0 ≤ x1 - x0 := sub_nonneg.mpr hchain.1
        calc c * (x1 - x0) = (x1 - x0) * (c + c) / 2 := by ring
          _ ≤ (x1 - x0) * (y0 + y1) / 2 := by
              have h2 : (0 : α) < 2 := two_pos
              exact (div_le_div_right h2).mpr (mul_le_mul_of_nonneg_left h2c hx)
      have hrest : c * (xs.getLastD x1 - x1) ≤ trapzAux y1 x1 ys xs := by
        apply ih xs y1 x1 (by simpa using hlen)
        · intro v hv
          exact hy v (by simpa using Or.inr hv)
        · exact hchain.2
      calc c * ((x1 :: xs).getLastD x0 - x0)
          = c * (x1 - x0) + c * (xs.getLastD x1 - x1) := by
            rw [List.getLastD_cons]; ring
        _ ≤ (x1 - x0) * (y0 + y1) / 2 + trapzAux y1 x1 ys xs := add_le_add hterm hrest
        _ = trapzAux y0 x0 (y1 :: ys) (x1 :: xs) := rfl

/-- Positivity of the trapezoidal integral of a density bounded below by a
positive constant over a strictly increasing grid of at least two points. -/
lemma trapz_pos {c : α} (hc : 0 < c) (y x : List α)
    (hlen : y.length = x.length) (hy : ∀ v ∈ y, c ≤ v)
    (hx : List.Chain' (· < ·) x) (hx2 : 2 ≤ x.length) :
    0 < trapz y x := by
  cases x with
  | nil => simp at hx2
  | cons x0 xs =>
    cases y with
    | nil => simp at hlen
    | cons y0 ys =>
      have hxs : xs ≠ [] := by
        cases xs with
        | nil => simp at hx2
        | cons a l => simp
      have hchain : List.Chain (· < ·) x0 xs := hx
      have hlast : x0 < xs.getLastD x0 := lt_getLastD_of_chain hchain hxs
      have hge : c * (xs.getLastD x0 - x0) ≤ trapzAux y0 x0 ys xs := by
        apply trapzAux_ge hc.le ys xs y0 x0 (by simpa using hlen) hy
        exact List.Chain.imp (fun a b h => h.le) hchain
      have hpos : 0 < c * (xs.getLastD x0 - x0) :=
        mul_pos hc (sub_pos.mpr hlast)
      exact hpos.trans_le hge

/-- Dividing every ordinate divides the trapezoidal sum. -/
lemma trapzAux_div (I : α) :
    ∀ (ys xs : List α) (y0 x0 : α),
    trapzAux (y0 / I) x0 (ys.map (· / I)) xs = trapzAux y0 x0 ys xs / I := by
  intro ys
  induction ys with
  | nil => intro xs y0 x0; simp [trapzAux]
  | cons y1 ys ih =>
    intro xs y0 x0
    cases xs with
    | nil => simp [trapzAux_nil_right]
    | cons x1 xs =>
      simp only [List.map_cons, trapzAux, ih xs y1 x1]
      rw [add_div]
      congr 1
      field_simp
      ring

lemma trapz_div (I : α) (y x : List α) :
    trapz (y.map (· / I)) x = trapz y x / I := by
  cases y with
  | nil => cases x <;> simp [trapz]
  | cons y0 ys =>
    cases x with
    | nil => simp [trapz]
    | cons x0 xs => simpa [trapz] using trapzAux_div I ys xs y0 x0

/-- Trapezoidal sum of a constant list telescopes. -/
lemma trapzAux_const (c : α) :
    ∀ (ys xs : List α) (x0 : α), ys.length = xs.length →
    trapzAux c x0 (ys.map (fun _ => c)) xs = c * (xs.getLastD x0 - x0) := by
  intro ys
  induction ys with
  | nil =>
    intro xs x0 hlen
    have : xs = [] := List.length_eq_zero.mp hlen.symm
    subst this
    simp [trapzAux]
  | cons y1 ys ih =>
    intro xs x0 hlen
    cases xs with
    | nil => simp at hlen
    | cons x1 xs =>
      simp only [List.map_cons, trapzAux]
      rw [ih xs x1 (by simpa using hlen), List.getLastD_cons]
      ring

lemma trapz_const (c : α) (y x : List α) (hlen : y.length = x.length) :
    trapz (y.map (fun _ => c)) x = c * (x.getLastD 0 - x.headD 0) := by
  cases y with
  | nil =>
    have : x = [] := List.length_eq_zero.mp hlen.symm
    subst this
    simp [trapz]
  | cons y0 ys =>
    cases x with
    | nil => simp at hlen
    | cons x0 xs =>
      simp only [trapz, List.map_cons]
      rw [trapzAux_const c ys xs x0 (by simpa using hlen)]
      rw [List.getLastD_cons]
      rfl

/-- Core property of `normalize_density`: over a strictly increasing grid of
matching length (at least two points) the output is non-negative pointwise and
its trapezoidal integral is exactly 1 — in both the generic branch and the
uniform fallback branch. -/
lemma normalize_density_spec (d x : List α) (hlen : d.length = x.length)
    (hx : List.Chain' (· < ·) x) (hx2 : 2 ≤ x.length) :
    (∀ v ∈ normalize_density d x, 0 ≤ v) ∧
      trapz (normalize_density d x) x = 1 := by
  have hxne : x ≠ [] := by
    cases x with
    | nil => simp at hx2
    | cons a l => simp
  have hhead_lt_last : x.headD 0 < x.getLastD 0 := by
    cases x with
    | nil => simp at hx2
    | cons x0 xs =>
      have hxs : xs ≠ [] := by
        cases xs with
        | nil => simp at hx2
        | cons a l => simp
      have h := lt_getLastD_of_chain (show List.Chain (· < ·) x0 xs from hx) hxs
      show x0 < (x0 :: xs).getLastD 0
      rw [List.getLastD_cons]
      exact h
  set ε : α := 1 / 10 ^ 10 with hε
  have hεpos : 0 < ε := by rw [hε]; positivity
  set dd := d.map (fun v => max v ε) with hdd
  have hddlen : dd.length = x.length := by simp [hdd, hlen]
  have hddge : ∀ v ∈ dd, ε ≤ v := by
    intro v hv
    rw [hdd] at hv
    obtain ⟨w, _, rfl⟩ := List.mem_map.mp hv
    exact le_max_right w ε
  have hIpos : 0 < trapz dd x := trapz_pos hεpos dd x hddlen hddge hx hx2
  constructor
  · intro v hv
    rw [normalize_density] at hv
    simp only [hIpos, if_pos] at hv
    obtain ⟨w, hw, rfl⟩ := List.mem_map.mp hv
    exact div_nonneg ((hεpos.le.trans (hddge w hw))) hIpos.le
  · rw [normalize_density]
    simp only [hIpos, if_pos]
    rw [trapz_div]
    exact div_self hIpos.ne'

/-- For `a < b` the `linspace` grid is strictly increasing. -/
lemma chain'_lt_linspace {a b : α} (hab : a < b) (n : ℕ) :
    List.Chain' (· < ·) (linspace a b n) := by
  rw [linspace, List.chain'_map]
  match n with
  | 0 => simp
  | 1 =>
    have h1 : List.range 1 = [0] := rfl
    rw [h1]
    exact List.chain'_singleton _
  | m + 2 =>
    rw [List.chain'_range_succ]
    intro i hi
    have hden : (0 : α) < (m + 2 : ℕ) - 1 := by push_cast; linarith
    have hstep : (0 : α) < (b - a) / ((m + 2 : ℕ) - 1) :=
      div_pos (sub_pos.mpr hab) hden
    have hcast : (i : α) < ((i + 1 : ℕ) : α) := by push_cast; linarith
    have := mul_lt_mul_of_pos_right hcast (by positivity : (0:α) < (b - a) / ((m + 2 : ℕ) - 1))
    calc a + (i : α) * (b - a) / ((m + 2 : ℕ) - 1)
        = a + (i : α) * ((b - a) / ((m + 2 : ℕ) - 1)) := by ring
      _ < a + ((i + 1 : ℕ) : α) * ((b - a) / ((m + 2 : ℕ) - 1)) := by linarith
      _ = a + ((i + 1 : ℕ) : α) * (b - a) / ((m + 2 : ℕ) - 1) := by ring

lemma length_finite_diff_2nd (C : α → α) (strikes : List α) :
    (finite_diff_2nd C strikes).length = strikes.length := by
  rw [finite_diff_2nd, List.length_map, List.length_range]

/-- The density produced by `_compute_density` over a strictly increasing grid
of at least two points is non-negative and integrates to exactly 1, whichever
branch (spline, finite differences, or the uniform fallback inside
`normalize_density`) is taken. -/
lemma compute_density_valid (exp_fn log_fn : α → α)
    (spline : Option ((α → α) × (α → α))) (C : α → α) (strikes : List α) (r T : α)
    (hchain : List.Chain' (· < ·) strikes) (h2 : 2 ≤ strikes.length) :
    (∀ v ∈ compute_density exp_fn log_fn spline C strikes r T, 0 ≤ v) ∧
      trapz (compute_density exp_fn log_fn spline C strikes r T) strikes = 1 := by
  cases spline with
  | none =>
    apply normalize_density_spec _ _ _ hchain h2
    rw [List.length_map, length_finite_diff_2nd]
  | some s =>
    apply normalize_density_spec _ _ _ hchain h2
    rw [List.length_map, List.length_map]

lemma getD_map_of_lt (l : List α) (f : α → α) (j : ℕ) (hj : j < l.length) :
    (List.map f l).getD j 0 = f (l.getD j 0) := by
  rw [List.getD_eq_getElem?_getD, List.getD_eq_getElem?_getD, List.getElem?_map,
    List.getElem?_eq_getElem hj]
  rfl

lemma getD_map_range (g : ℕ → α) (n i : ℕ) (hi : i < n) :
    (List.map g (List.range n)).getD i 0 = g i := by
  rw [List.getD_eq_getElem?_getD, List.getElem?_map, List.getElem?_range hi]
  rfl

/-- C1: for every SmoothingResult with a proper strike range and expiry/trade
date with `(expiry - trade_date)/365 > 0`, `RNDExtractor.extract` succeeds and
returns a density that is non-negative at every grid index and whose
trapezoidal integral over the strike grid is within `1e-3` of 1 (it is exactly
1, in the uniform fallback branch of `normalize_density` as well). -/
theorem c1_extract_density_valid (exp_fn log_fn sqrt_fn : α → α) (r : α)
    (num_points : ℕ) (sm : SmoothingResult α) (expiry trade_date : ℤ)
    (hT : 0 < ((expiry - trade_date : ℤ) : α) / 365)
    (hK : sm.strike_min < sm.strike_max) (hn : 2 ≤ num_points) :
    ∃ res : RNDResult α,
      RNDExtractor.extract exp_fn log_fn sqrt_fn r num_points sm expiry trade_date
        = Except.ok res ∧
      (∀ v ∈ res.density, 0 ≤ v) ∧
      |trapz res.density res.strikes - 1| < 1 / 1000 := by
  have hgrid : List.Chain' (· < ·) (sm.get_strike_grid num_points) :=
    chain'_lt_linspace hK num_points
  have hlen : 2 ≤ (sm.get_strike_grid num_points).length := by
    rw [SmoothingResult.get_strike_grid, length_linspace]; exact hn
  have hcd := compute_density_valid exp_fn log_fn sm.spline sm.smooth_fn
    (sm.get_strike_grid num_points) r (((expiry - trade_date : ℤ) : α) / 365) hgrid hlen
  set T : α := ((expiry - trade_date : ℤ) : α) / 365 with hTdef
  set grid := sm.get_strike_grid num_points with hgdef
  set dens := compute_density exp_fn log_fn sm.spline sm.smooth_fn grid r T with hddef
  set m := compute_density_moments sqrt_fn dens grid with hmdef
  have hex : RNDExtractor.extract exp_fn log_fn sqrt_fn r num_points sm expiry trade_date
      = Except.ok ⟨grid, dens, expiry, T, sm.spot_price, m.1, m.2.1, m.2.2.1, m.2.2.2⟩ := by
    simp only [RNDExtractor.extract]
    rw [if_neg (not_le.mpr hT)]
  refine ⟨_, hex, hcd.1, ?_⟩
  show |trapz dens grid - 1| < 1 / 1000
  rw [hcd.2]
  norm_num

theorem c1_extract_density_valid_witness :
    ∃ res : RNDResult ℚ,
      RNDExtractor.extract (fun x : ℚ => x) (fun x => x) (fun x => x) 0 2
        ⟨[0, 4], [1, 1], fun x => x, 2, 0, 4, none⟩ 365 0 = Except.ok res ∧
      (∀ v ∈ res.density, 0 ≤ v) ∧
      |trapz res.density res.strikes - 1| < 1 / 1000 :=
  c1_extract_density_valid (fun x : ℚ => x) (fun x => x) (fun x => x) 0 2
    ⟨[0, 4], [1, 1], fun x => x, 2, 0, 4, none⟩ 365 0
    (by norm_num) (by norm_num) (by norm_num)

/-- C2: with a spline handle available the pre-normalization density at grid
point `K` is `e^{rT} * (C''_{logK}(log K) - C'_{logK}(log K)) / K²`; without
one it is the central second finite difference of `C` with the uniform step
`strikes[1] - strikes[0]`; either way the raw density is then passed through
`normalize_density`. -/
theorem c2_compute_density_formula (exp_fn log_fn : α → α) (d1 d2 : α → α)
    (C : α → α) (strikes : List α) (r T : α) :
    compute_density exp_fn log_fn (some (d1, d2)) C strikes r T
      = normalize_density
          (List.map (fun K => exp_fn (r * T) * ((d2 (log_fn K) - d1 (log_fn K)) / K ^ 2))
            strikes) strikes ∧
    compute_density exp_fn log_fn none C strikes r T
      = normalize_density
          (List.map (fun v => exp_fn (r * T) * v) (finite_diff_2nd C strikes)) strikes ∧
    ∀ i : ℕ, 0 < i → i + 1 < strikes.length →
      (finite_diff_2nd C strikes).getD i 0
        = (C (strikes.getD (i + 1) 0) - 2 * C (strikes.getD i 0)
            + C (strikes.getD (i - 1) 0))
          / (strikes.getD 1 0 - strikes.getD 0 0) ^ 2 := by
  refine ⟨?_, ?_, ?_⟩
  · simp only [compute_density, List.map_map]
    rfl
  · rfl
  · intro i hi0 hi1
    have hin : i < strikes.length := Nat.lt_of_succ_lt hi1
    have hne0 : i ≠ 0 := Nat.pos_iff_ne_zero.mp hi0
    have hnelast : i ≠ strikes.length - 1 := by
      omega
    simp only [finite_diff_2nd]
    rw [getD_map_range _ _ i hin]
    rw [if_neg hne0, if_neg hnelast]
    rw [getD_map_of_lt _ _ _ hi1, getD_map_of_lt _ _ _ hin,
      getD_map_of_lt _ _ _ (by omega : i - 1 < strikes.length)]

theorem c2_compute_density_formula_witness :
    (finite_diff_2nd (fun x : ℚ => x ^ 2) [1, 2, 3]).getD 1 0 = 2 := by
  have h := (c2_compute_density_formula (fun x : ℚ => x) (fun x => x) (fun x => x)
      (fun x => x) (fun x : ℚ => x ^ 2) [1, 2, 3] 0 0).2.2 1 one_pos (by norm_num)
  rw [h]
  norm_num

/-- C7 counterexample: on the uniform grid `[0,1,2,3,4]` with the normalized
non-negative density `[13/10, 1/10, 1/10, 1/10, 1/10]`, inverting
`probability_below(x_2) = 4/5` through `compute_quantiles` yields `3/5`,
which is `7/5 > 1` grid steps away from `x_2 = 2`: the trapezoidal CDF used
by `probability_below` and the rescaled cumulative-sum CDF used by
`compute_quantiles` disagree at a mass spike on the left edge. -/
theorem c7_round_trip_counterexample :
    ([0, 1, 2, 3, 4] : List ℚ) = linspace 0 4 5 ∧
    trapz ([13/10, 1/10, 1/10, 1/10, 1/10] : List ℚ) [0, 1, 2, 3, 4] = 1 ∧
    (∀ v ∈ ([13/10, 1/10, 1/10, 1/10, 1/10] : List ℚ), 0 ≤ v) ∧
    compute_quantiles ([13/10, 1/10, 1/10, 1/10, 1/10] : List ℚ) [0, 1, 2, 3, 4]
      [probability_below ([13/10, 1/10, 1/10, 1/10, 1/10] : List ℚ) [0, 1, 2, 3, 4] 2]
      = [3/5] ∧
    ¬ |(3 : ℚ)/5 - 2| ≤ ([0, 1, 2, 3, 4] : List ℚ).getD 1 0
        - ([0, 1, 2, 3, 4] : List ℚ).getD 0 0 := by
  refine ⟨?_, ?_, ?_, ?_, ?_⟩
  · norm_num [linspace, List.range_succ]
  · norm_num [trapz, trapzAux]
  · intro v hv
    simp only [List.mem_cons, List.not_mem_nil, or_false] at hv
    rcases hv with rfl | rfl | rfl | rfl | rfl <;> norm_num
  · norm_num [compute_quantiles, internal_cdf, cumsum, cumsumAux, probability_below,
      trapz, trapzAux, interp, List.filter, List.zip, List.zipWith]
  · rw [abs_of_nonpos (by norm_num)]
    norm_num

lemma interp_cons2 (v x0 x1 f0 f1 : α) (xs fs : List α) :
    interp v (x0 :: x1 :: xs) (f0 :: f1 :: fs)
      = if v ≤ x0 then f0
        else if v ≤ x1 then f0 + (f1 - f0) * (v - x0) / (x1 - x0)
        else interp v (x1 :: xs) (f1 :: fs) := rfl

lemma getD_mem_of_lt (l : List α) (i : ℕ) (d : α) (hi : i < l.length) :
    l.getD i d ∈ l := by
  rw [List.getD_eq_getElem l d hi]
  exact List.getElem_mem hi

/-- Evaluating `np.interp` exactly at the `i`-th node of a strictly increasing
abscissa list returns the `i`-th ordinate. -/
lemma interp_at_node : ∀ (xp fp : List α) (i : ℕ), i < xp.length →
    fp.length = xp.length → List.Chain' (· < ·) xp →
    interp (xp.getD i 0) xp fp = fp.getD i 0 := by
  intro xp
  induction xp with
  | nil => intro fp i hi; simp at hi
  | cons x0 xt ih =>
    intro fp i hi hlen hchain
    cases fp with
    | nil => simp at hlen
    | cons f0 ft =>
      cases xt with
      | nil =>
        have hft : ft = [] := by simpa using hlen
        subst hft
        have hi0 : i = 0 := Nat.lt_one_iff.mp (by simpa using hi)
        subst hi0
        rfl
      | cons x1 xs =>
        cases ft with
        | nil => simp at hlen
        | cons f1 fs =>
          have hpw : List.Pairwise (· < ·) (x0 :: x1 :: xs) :=
            List.chain'_iff_pairwise.mp hchain
          cases i with
          | zero =>
            simp only [List.getD_cons_zero, interp_cons2, le_refl, if_pos]
          | succ j =>
            have hj : j < (x1 :: xs).length := by
              simpa [Nat.succ_lt_succ_iff] using hi
            have hv_gt : x0 < (x1 :: xs).getD j 0 :=
              (List.pairwise_cons.mp hpw).1 _ (getD_mem_of_lt _ j 0 hj)
            simp only [List.getD_cons_succ]
            rw [interp_cons2, if_neg (not_le.mpr hv_gt)]
            cases j with
            | zero =>
              have h01 : x0 < x1 := hv_gt
              rw [List.getD_cons_zero, if_pos (le_refl x1), List.getD_cons_zero]
              have hne : x1 - x0 ≠ 0 := sub_ne_zero.mpr h01.ne'
              field_simp
            | succ k =>
              have hk : k < xs.length := by
                simpa [Nat.succ_lt_succ_iff] using hj
              have hpw1 : List.Pairwise (· < ·) (x1 :: xs) := (List.pairwise_cons.mp hpw).2
              have hx1_lt : x1 < xs.getD k 0 :=
                (List.pairwise_cons.mp hpw1).1 _ (getD_mem_of_lt _ k 0 hk)
              rw [List.getD_cons_succ, if_neg (not_le.mpr hx1_lt)]
              have := ih (f1 :: fs) (k + 1) hj (by simpa using hlen) hchain.tail
              simpa [List.getD_cons_succ] using this

lemma length_cumsumAux : ∀ (l : List α) (acc : α), (cumsumAux acc l).length = l.length := by
  intro l
  induction l with
  | nil => intro acc; rfl
  | cons v vs ih => intro acc; simp [cumsumAux, ih]

/-- Cumulative sums of strictly positive values are strictly increasing and
strictly above the starting accumulator. -/
lemma cumsumAux_chain_lt : ∀ (l : List α) (acc : α), (∀ v ∈ l, 0 < v) →
    List.Chain' (· < ·) (cumsumAux acc l) ∧ ∀ y ∈ cumsumAux acc l, acc < y := by
  intro l
  induction l with
  | nil => intro acc _; exact ⟨List.chain'_nil, by simp [cumsumAux]⟩
  | cons v vs ih =>
    intro acc h
    have hv : 0 < v := h v (by simp)
    have ih' := ih (acc + v) (fun w hw => h w (by simp [hw]))
    constructor
    · rw [cumsumAux]
      exact List.chain'_cons'.mpr
        ⟨fun y hy => ih'.2 y (List.mem_of_mem_head? hy), ih'.1⟩
    · intro y hy
      rw [cumsumAux, List.mem_cons] at hy
      rcases hy with rfl | hy
      · linarith
      · have := ih'.2 y hy
        linarith

lemma getLastD_mem : ∀ (l : List α) (d : α), l ≠ [] → l.getLastD d ∈ l := by
  intro l
  induction l with
  | nil => intro d h; cases h rfl
  | cons a t ih =>
    intro d h
    rw [List.getLastD_cons]
    cases t with
    | nil => simp [List.getLastD]
    | cons b u => exact List.mem_cons_of_mem a (ih a (by simp))

/-- C7 amended: the quantile inversion is exact — hence within one grid step —
when `compute_quantiles` is fed its own internal CDF value: for a grid with
positive first step and a strictly positive density, inverting the rescaled
cumulative-sum CDF value at index `i` returns exactly `x_i`. (The round trip
through `probability_below`'s trapezoidal CDF is not bounded by one grid step,
see the counterexample.) -/
theorem c7_quantile_inversion_amended (density x : List α)
    (hlen : density.length = x.length)
    (hpos : ∀ v ∈ density, 0 < v)
    (hdx : 0 < x.getD 1 0 - x.getD 0 0)
    (i : ℕ) (hi : i < x.length) :
    compute_quantiles density x [(internal_cdf density x).getD i 0] = [x.getD i 0] ∧
    |(compute_quantiles density x [(internal_cdf density x).getD i 0]).getD 0 0
        - x.getD i 0| ≤ x.getD 1 0 - x.getD 0 0 := by
  set dx := x.getD 1 0 - x.getD 0 0 with hdxdef
  set cdf0 := List.map (fun c => c * dx) (cumsum density) with hcdf0
  have hcs := cumsumAux_chain_lt density 0 hpos
  have hchain0 : List.Chain' (· < ·) cdf0 := by
    rw [hcdf0, List.chain'_map]
    exact List.Chain'.imp (fun a b hab => mul_lt_mul_of_pos_right hab hdx) hcs.1
  have hpos0 : ∀ y ∈ cdf0, 0 < y := by
    intro y hy
    rw [hcdf0] at hy
    obtain ⟨w, hw, rfl⟩ := List.mem_map.mp hy
    exact mul_pos (hcs.2 w hw) hdx
  have hlen0 : cdf0.length = x.length := by
    rw [hcdf0, List.length_map, cumsum, length_cumsumAux, hlen]
  have hne : cdf0 ≠ [] := by
    intro hnil
    rw [hnil] at hlen0
    simp only [List.length_nil] at hlen0
    omega
  have hZ : 0 < cdf0.getLastD 0 := hpos0 _ (getLastD_mem cdf0 0 hne)
  have hcdf_eq : internal_cdf density x = List.map (fun c => c / cdf0.getLastD 0) cdf0 := by
    rw [internal_cdf]
    simp only [← hdxdef, ← hcdf0, if_pos hZ]
  have hchain : List.Chain' (· < ·) (internal_cdf density x) := by
    rw [hcdf_eq, List.chain'_map]
    refine List.Chain'.imp (fun a b hab => ?_) hchain0
    rw [div_eq_mul_inv, div_eq_mul_inv]
    exact mul_lt_mul_of_pos_right hab (inv_pos.mpr hZ)
  have hlen1 : (internal_cdf density x).length = x.length := by
    rw [hcdf_eq, List.length_map, hlen0]
  have hmain : interp ((internal_cdf density x).getD i 0) (internal_cdf density x) x
      = x.getD i 0 :=
    interp_at_node (internal_cdf density x) x i (by rw [hlen1]; exact hi) hlen1.symm hchain
  constructor
  · show [interp ((internal_cdf density x).getD i 0) (internal_cdf density x) x]
        = [x.getD i 0]
    rw [hmain]
  · show |(([interp ((internal_cdf density x).getD i 0) (internal_cdf density x) x])
        : List α).getD 0 0 - x.getD i 0| ≤ dx
    rw [hmain]
    simp only [List.getD_cons_zero]
    rw [sub_self, abs_zero]
    exact hdx.le

theorem c7_quantile_inversion_amended_witness :
    compute_quantiles ([1/2, 1/2] : List ℚ) [0, 2]
      [(internal_cdf ([1/2, 1/2] : List ℚ) [0, 2]).getD 1 0] = [2] ∧
    |(compute_quantiles ([1/2, 1/2] : List ℚ) [0, 2]
        [(internal_cdf ([1/2, 1/2] : List ℚ) [0, 2]).getD 1 0]).getD 0 0 - 2| ≤ 2 := by
  have h := c7_quantile_inversion_amended ([1/2, 1/2] : List ℚ) [0, 2] rfl
    (by intro v hv
        simp only [List.mem_cons, List.not_mem_nil, or_false] at hv
        rcases hv with rfl | rfl <;> norm_num)
    (by norm_num) 1 (by norm_num)
  constructor
  · exact h.1
  · have h2 := h.2
    norm_num at h2 ⊢
    exact h2

/-- C10: splitting the (sorted) strike grid into the part `s₁` at or below `K`
and the part `s₂` strictly above `K`, `probability_below` integrates the
density over `s₁` only — in particular it returns exactly `0` via the
empty-mask branch when every strike exceeds `K`, and `probability_above` then
returns exactly `1`. -/
theorem c10_probability_below_prefix (d1 d2 s1 s2 : List α) (K : α)
    (hlen : s1.length = d1.length)
    (h1 : ∀ s ∈ s1, s ≤ K) (h2 : ∀ s ∈ s2, K < s) :
    probability_below (d1 ++ d2) (s1 ++ s2) K = trapz d1 s1 ∧
    (s1 = [] → probability_below (d1 ++ d2) (s1 ++ s2) K = 0 ∧
      probability_above (d1 ++ d2) (s1 ++ s2) K = 1) := by
  have hzip : List.zip (s1 ++ s2) (d1 ++ d2) = List.zip s1 d1 ++ List.zip s2 d2 :=
    List.zip_append hlen
  have hfilter1 : List.filter (fun p : α × α => decide (p.1 ≤ K)) (List.zip s1 d1)
      = List.zip s1 d1 := by
    apply List.filter_eq_self.mpr
    intro p hp
    exact decide_eq_true (h1 p.1 (List.of_mem_zip hp).1)
  have hfilter2 : List.filter (fun p : α × α => decide (p.1 ≤ K)) (List.zip s2 d2)
      = [] := by
    apply List.filter_eq_nil.mpr
    intro p hp
    simp only [decide_eq_true_eq]
    exact not_le.mpr (h2 p.1 (List.of_mem_zip hp).1)
  have hpairs : List.filter (fun p : α × α => decide (p.1 ≤ K))
      (List.zip (s1 ++ s2) (d1 ++ d2)) = List.zip s1 d1 := by
    rw [hzip, List.filter_append, hfilter1, hfilter2, List.append_nil]
  have hfst : List.map Prod.fst (List.zip s1 d1) = s1 :=
    List.map_fst_zip s1 d1 (le_of_eq hlen)
  have hsnd : List.map Prod.snd (List.zip s1 d1) = d1 :=
    List.map_snd_zip s1 d1 (ge_of_eq hlen)
  constructor
  · rw [probability_below]
    simp only [hpairs]
    cases s1 with
    | nil =>
      have hd1 : d1 = [] := List.length_eq_zero.mp (by simpa using hlen.symm)
      subst hd1
      simp [trapz]
    | cons s0 st =>
      cases d1 with
      | nil => simp at hlen
      | cons v0 vt =>
        rw [if_neg (by simp [List.zip])]
        rw [hfst, hsnd]
  · intro hs1
    subst hs1
    have hd1 : d1 = [] := List.length_eq_zero.mp (by simpa using hlen.symm)
    subst hd1
    have h0 : probability_below (([] : List α) ++ d2) (([] : List α) ++ s2) K = 0 := by
      rw [probability_below]
      simp only [hpairs]
      simp [List.zip]
    exact ⟨h0, by rw [probability_above, h0]; ring⟩

theorem c10_probability_below_prefix_witness :
    probability_below ([1, 2, 3] : List ℚ) [10, 20, 30] 25 = trapz [1, 2] [10, 20] ∧
    probability_below ([1, 2, 3] : List ℚ) [10, 20, 30] 5 = 0 ∧
    probability_above ([1, 2, 3] : List ℚ) [10, 20, 30] 5 = 1 := by
  have ha := c10_probability_below_prefix ([1, 2] : List ℚ) [3] [10, 20] [30] 25 rfl
    (by intro s hs
        simp only [List.mem_cons, List.not_mem_nil, or_false] at hs
        rcases hs with rfl | rfl <;> norm_num)
    (by intro s hs
        simp only [List.mem_cons, List.not_mem_nil, or_false] at hs
        rcases hs with rfl; norm_num)
  have hb := c10_probability_below_prefix ([] : List ℚ) [1, 2, 3] [] [10, 20, 30] 5 rfl
    (by intro s hs; simp at hs)
    (by intro s hs
        simp only [List.mem_cons, List.not_mem_nil, or_false] at hs
        rcases hs with rfl | rfl | rfl <;> norm_num)
  exact ⟨ha.1, (hb.2 rfl).1, (hb.2 rfl).2⟩

/-- C6: the fitted call-price callable extrapolates flat below `K_min` and
above `K_max` and is non-negative everywhere (for any monotone `log`, as
`np.log` is on the positive reals where the clipped argument lives). -/
theorem c6_smooth_fn_flat_nonneg (log_fn spline_val : α → α)
    (hlog : Monotone log_fn) (k_min k_max : α) (hkk : k_min ≤ k_max) :
    (∀ K, K ≤ k_min → fit_smooth_fn log_fn spline_val k_min k_max K
        = fit_smooth_fn log_fn spline_val k_min k_max k_min) ∧
    (∀ K, k_max ≤ K → fit_smooth_fn log_fn spline_val k_min k_max K
        = fit_smooth_fn log_fn spline_val k_min k_max k_max) ∧
    (∀ K, 0 ≤ fit_smooth_fn log_fn spline_val k_min k_max K) := by
  set ε : α := 1 / 10 ^ 10 with hε
  refine ⟨?_, ?_, ?_⟩
  · intro K hK
    rcases le_total ε k_min with hem | hem
    · have harg : max K ε ≤ k_min := max_le (hK.trans le_rfl) hem
      have hv : log_fn (max K ε) ≤ log_fn k_min := hlog harg
      have hmin_arg : max k_min ε = k_min := max_eq_left hem
      rw [fit_smooth_fn, fit_smooth_fn, hmin_arg]
      rw [max_eq_right hv, max_self]
    · have hKε : max K ε = ε := max_eq_right (hK.trans hem)
      have hKε' : max k_min ε = ε := max_eq_right hem
      rw [fit_smooth_fn, fit_smooth_fn, hKε, hKε']
  · intro K hK
    have hhi : log_fn k_max ≤ log_fn (max K ε) := hlog (hK.trans (le_max_left K ε))
    have hhi' : log_fn k_max ≤ log_fn (max k_max ε) := hlog (le_max_left k_max ε)
    rw [fit_smooth_fn, fit_smooth_fn]
    rw [min_eq_right (hhi.trans (le_max_left _ _)),
      min_eq_right (hhi'.trans (le_max_left _ _))]
  · intro K
    exact le_max_right _ 0

theorem c6_smooth_fn_flat_nonneg_witness :
    fit_smooth_fn (fun x : ℚ => x) (fun x => x) 1 2 0
        = fit_smooth_fn (fun x : ℚ => x) (fun x => x) 1 2 1 ∧
    fit_smooth_fn (fun x : ℚ => x) (fun x => x) 1 2 3
        = fit_smooth_fn (fun x : ℚ => x) (fun x => x) 1 2 2 ∧
    0 ≤ fit_smooth_fn (fun x : ℚ => x) (fun x => x) 1 2 5 := by
  have h := c6_smooth_fn_flat_nonneg (fun x : ℚ => x) (fun x => x)
    (fun _ _ hab => hab) 1 2 (by norm_num)
  exact ⟨h.1 0 (by norm_num), h.2.1 3 (by norm_num), h.2.2 5⟩

/-- C3 counterexample: spot 100, rate 0, one expiry (day 30, dte 30) carrying a
real call with mid 5 and a put with mid 2, both at strike 99.5 (inside the ATM
band and below spot). The put is converted first (synthetic mid
`2 + 100 - 99.5 = 5/2`), and the ATM add-back loop then skips the real call
because the strike is already present: the surviving row carries the
synthetic mid `5/2`, not the real call's mid `5`. -/
theorem c3_atm_dedup_counterexample :
    build_otm_chain Real.exp
      (⟨[⟨30, 199/2, OptRight.call, 99/20, 11/2, 50, 500, 5, 30⟩,
         ⟨30, 199/2, OptRight.put, 3/2, 5/2, 50, 500, 2, 30⟩], true, true⟩ : Frame ℝ)
      100 0
      = Except.ok [⟨30, 199/2, 5/2, OtmSource.put_synthetic⟩] ∧
    (5 : ℝ)/2 ≠ 5 := by
  constructor
  · norm_num [build_otm_chain, build_otm_expiry, dedupFirst, atm_fold,
      List.insertionSort, List.orderedInsert, List.filter, List.filterMap,
      List.isEmpty, Real.exp_zero, List.bind]
  · norm_num

/-- The ATM add-back loop only ever appends rows tagged with its expiry. -/
lemma atm_fold_mem_expiry (e : ℤ) :
    ∀ (calls : List (OptionRow α)) (acc : List (OtmRow α)) (w : OtmRow α),
    w ∈ atm_fold e calls acc → w ∈ acc ∨ w.expiry = e := by
  intro calls
  induction calls with
  | nil => intro acc w hw; exact Or.inl hw
  | cons q qs ih =>
    intro acc w hw
    rw [atm_fold] at hw
    by_cases hchk :
        (acc.filter (fun u => decide (u.strike = q.strike))).isEmpty = true
    · rw [if_pos hchk] at hw
      rcases ih _ w hw with hmem | he
      · rcases List.mem_append.mp hmem with h | h
        · exact Or.inl h
        · simp only [List.mem_singleton] at h
          subst h
          exact Or.inr rfl
      · exact Or.inr he
    · rw [if_neg hchk] at hw
      exact ih _ w hw

/-- While a row at strike `K` is already present, the ATM add-back loop never
adds another row at strike `K`: the count of rows satisfying a
strike-`K`-implying predicate is preserved, and every such row was already in
the accumulator. -/
lemma atm_fold_preserve (e : ℤ) (K : α) (p : OtmRow α → Bool)
    (hp : ∀ w : OtmRow α, p w = true → w.strike = K) :
    ∀ (calls : List (OptionRow α)) (acc : List (OtmRow α)),
    (∃ u ∈ acc, u.strike = K) →
    (atm_fold e calls acc).countP p = acc.countP p ∧
      ∀ w ∈ atm_fold e calls acc, p w = true → w ∈ acc := by
  intro calls
  induction calls with
  | nil => intro acc _; exact ⟨rfl, fun w hw _ => hw⟩
  | cons q qs ih =>
    intro acc hex
    obtain ⟨u, hu, huK⟩ := hex
    rw [atm_fold]
    by_cases hchk :
        (acc.filter (fun w => decide (w.strike = q.strike))).isEmpty = true
    · have hqK : q.strike ≠ K := by
        intro hqK
        have : u ∈ acc.filter (fun w => decide (w.strike = q.strike)) :=
          List.mem_filter.mpr ⟨hu, by rw [huK, hqK]; simp⟩
        rw [List.isEmpty_iff] at hchk
        rw [hchk] at this
        exact List.not_mem_nil u this
      rw [if_pos hchk]
      set acc' := acc ++ [(⟨e, q.strike, q.mid, OtmSource.call⟩ : OtmRow α)] with hacc'
      have hpnew : p ⟨e, q.strike, q.mid, OtmSource.call⟩ = false := by
        by_contra hcontra
        have := hp _ (Bool.of_not_eq_false hcontra)
        exact hqK this
      have hcount' : acc'.countP p = acc.countP p := by
        rw [hacc', List.countP_append]
        simp [List.countP_cons, hpnew]
      have hex' : ∃ u ∈ acc', u.strike = K :=
        ⟨u, List.mem_append.mpr (Or.inl hu), huK⟩
      have hih := ih acc' hex'
      refine ⟨hih.1.trans hcount', fun w hw hpw => ?_⟩
      have hw' := hih.2 w hw hpw
      rcases List.mem_append.mp hw' with h | h
      · exact h
      · simp only [List.mem_singleton] at h
        subst h
        rw [hpnew] at hpw
        cases hpw
    · rw [if_neg hchk]
      exact ih acc ⟨u, hu, huK⟩

/-- Every row produced by the per-expiry OTM builder carries that expiry. -/
lemma build_otm_expiry_mem (exp_fn : α → α) (spot r : α) (e : ℤ)
    (exp_rows : List (OptionRow α)) (w : OtmRow α)
    (hw : w ∈ build_otm_expiry exp_fn spot r e exp_rows) : w.expiry = e := by
  rw [build_otm_expiry] at hw
  cases hq0 : exp_rows.head? with
  | none => rw [hq0] at hw; exact absurd hw (List.not_mem_nil w)
  | some q0 =>
    rw [hq0] at hw
    rcases atm_fold_mem_expiry e _ _ w hw with hbase | he
    · rcases List.mem_append.mp hbase with h | h
      · obtain ⟨q, _, rfl⟩ := List.mem_map.mp h
        rfl
      · obtain ⟨q, _, hg⟩ := List.mem_filterMap.mp h
        by_cases hc : 0 < q.mid + spot - q.strike * exp_fn (-(r * ((q0.dte : α) / 365)))
        · rw [if_pos hc] at hg
          cases hg
          rfl
        · rw [if_neg hc] at hg
          cases hg
    · exact he

lemma mem_dedupFirst : ∀ (l : List ℤ) (a : ℤ), a ∈ dedupFirst l ↔ a ∈ l := by
  intro l
  induction l using dedupFirst.induct with
  | case1 => intro a; rw [dedupFirst]
  | case2 b t ih =>
    intro a
    rw [dedupFirst]
    constructor
    · intro ha
      rcases List.mem_cons.mp ha with rfl | ha
      · exact List.mem_cons_self a t
      · have := (ih a).mp ha
        exact List.mem_cons_of_mem b (List.mem_of_mem_filter this)
    · intro ha
      rcases List.mem_cons.mp ha with rfl | ha
      · exact List.mem_cons_self a _
      · by_cases hab : a = b
        · subst hab; exact List.mem_cons_self a _
        · refine List.mem_cons_of_mem b ((ih a).mpr ?_)
          exact List.mem_filter.mpr ⟨ha, by simp [hab]⟩

lemma nodup_dedupFirst : ∀ l : List ℤ, (dedupFirst l).Nodup := by
  intro l
  induction l using dedupFirst.induct with
  | case1 => rw [dedupFirst]; exact List.nodup_nil
  | case2 b t ih =>
    rw [dedupFirst]
    refine List.nodup_cons.mpr ⟨?_, ih⟩
    intro hb
    have := List.mem_filter.mp ((mem_dedupFirst _ b).mp hb)
    simp at this

lemma countP_bind_zero {β : Type} (l : List ℤ) (f : ℤ → List β) (p : β → Bool)
    (h : ∀ e' ∈ l, (f e').countP p = 0) : (l.bind f).countP p = 0 := by
  induction l with
  | nil => rfl
  | cons a t ih =>
    have hstep : (a :: t).bind f = f a ++ t.bind f := rfl
    rw [hstep, List.countP_append, h a (List.mem_cons_self a t),
      ih (fun e' he' => h e' (List.mem_cons_of_mem a he'))]

lemma countP_bind_single {β : Type} (l : List ℤ) (f : ℤ → List β) (p : β → Bool)
    (e : ℤ) (he : e ∈ l) (hnodup : l.Nodup)
    (hother : ∀ e' ∈ l, e' ≠ e → (f e').countP p = 0) :
    (l.bind f).countP p = (f e).countP p := by
  induction l with
  | nil => exact absurd he (List.not_mem_nil e)
  | cons a t ih =>
    have hstep : (a :: t).bind f = f a ++ t.bind f := rfl
    rw [hstep, List.countP_append]
    rcases List.mem_cons.mp he with rfl | het
    · have hzero : (t.bind f).countP p = 0 := by
        apply countP_bind_zero
        intro e' he'
        refine hother e' (List.mem_cons_of_mem _ he') ?_
        intro heq
        subst heq
        exact (List.nodup_cons.mp hnodup).1 he'
      rw [hzero, Nat.add_zero]
    · have ha : (f a).countP p = 0 := by
        refine hother a (List.mem_cons_self a t) ?_
        intro heq
        subst heq
        exact (List.nodup_cons.mp hnodup).1 het
      rw [ha, Nat.zero_add]
      exact ih het (List.nodup_cons.mp hnodup).2
        (fun e' he' hne => hother e' (List.mem_cons_of_mem a he') hne)

/-- The parity-conversion `filterMap` produces exactly one row satisfying `p`
when exactly one input row maps to a `p`-satisfying output. -/
lemma countP_filterMap_single {β γ : Type} (g : β → Option γ) (p : γ → Bool)
    (b0 : β) (c0 : γ) (hb0 : g b0 = some c0) (hp0 : p c0 = true) :
    ∀ l : List β, (∀ b ∈ l, b ≠ b0 → ∀ c, g b = some c → p c = false) →
    b0 ∈ l → l.Nodup → (l.filterMap g).countP p = 1 := by
  intro l
  induction l with
  | nil => intro _ h; exact absurd h (List.not_mem_nil b0)
  | cons b t ih =>
    intro hzero hmem hnodup
    by_cases hb : b = b0
    · subst hb
      rw [List.filterMap_cons_some hb0, List.countP_cons, hp0]
      have hzero_t : (t.filterMap g).countP p = 0 := by
        apply List.countP_eq_zero.mpr
        intro c hc
        obtain ⟨b', hb't, hgb'⟩ := List.mem_filterMap.mp hc
        have hb'ne : b' ≠ b := by
          intro heq
          subst heq
          exact (List.nodup_cons.mp hnodup).1 hb't
        simp [hzero b' (List.mem_cons_of_mem b hb't) hb'ne c hgb']
      rw [hzero_t]
      simp
    · have hmem_t : b0 ∈ t := by
        rcases List.mem_cons.mp hmem with heq | h
        · exact absurd heq.symm hb
        · exact h
      have iht := ih (fun b' hb' => hzero b' (List.mem_cons_of_mem b hb'))
        hmem_t (List.nodup_cons.mp hnodup).2
      cases hgb : g b with
      | none => rw [List.filterMap_cons_none hgb]; exact iht
      | some c =>
        rw [List.filterMap_cons_some hgb, List.countP_cons]
        have : p c = false := hzero b (List.mem_cons_self b t) hb c hgb
        simp only [this, Bool.false_eq_true, if_false, Nat.add_zero]
        exact iht

/-- C3 amended: when a cleaned chain holds exactly one real call and one put
at the same (expiry, strike) with the strike in the ATM band below spot and a
positive parity price, the OTM chain contains exactly one row at that
(expiry, strike) — but its mid is the put-derived synthetic price
`P + S - K e^{-rT}`: the synthetic, inserted before the ATM add-back loop
runs, takes precedence over the real call. -/
theorem c3_atm_dedup_amended (exp_fn : α → α) (chain : Frame α) (spot r K : α)
    (e d : ℤ) (callRow putRow : OptionRow α)
    (hmid : chain.hasMid = true) (hdtecol : chain.hasDte = true)
    (hnodup : chain.rows.Nodup)
    (hcmem : callRow ∈ chain.rows) (hpmem : putRow ∈ chain.rows)
    (hcright : callRow.right = OptRight.call) (hcexp : callRow.expiry = e)
    (hcK : callRow.strike = K)
    (hpright : putRow.right = OptRight.put) (hpexp : putRow.expiry = e)
    (hpK : putRow.strike = K)
    (honly : ∀ q ∈ chain.rows, q.expiry = e → q.strike = K →
      q = callRow ∨ q = putRow)
    (hdte_all : ∀ q ∈ chain.rows, q.expiry = e → q.dte = d)
    (hband : spot * (99 / 100) ≤ K) (hKlt : K < spot)
    (hcpos : 0 < putRow.mid + spot - K * exp_fn (-(r * ((d : α) / 365)))) :
    ∃ res, build_otm_chain exp_fn chain spot r = Except.ok res ∧
      res.countP (fun w => decide (w.expiry = e ∧ w.strike = K)) = 1 ∧
      ∀ w ∈ res, w.expiry = e → w.strike = K →
        w.mid = putRow.mid + spot - K * exp_fn (-(r * ((d : α) / 365))) ∧
        w.src = OtmSource.put_synthetic := by
  set pK : OtmRow α → Bool := fun w => decide (w.expiry = e ∧ w.strike = K) with hpKdef
  have hnonempty : chain.rows.isEmpty = false := by
    cases hrows : chain.rows with
    | nil => rw [hrows] at hcmem; exact absurd hcmem (List.not_mem_nil _)
    | cons a t => rfl
  set f : ℤ → List (OtmRow α) := fun e' => build_otm_expiry exp_fn spot r e'
    (chain.rows.filter (fun q => decide (q.expiry = e'))) with hfdef
  set expiries := dedupFirst (List.map (fun q => q.expiry) chain.rows) with hexpdef
  set results := expiries.bind f with hresultsdef
  have hbuild : build_otm_chain exp_fn chain spot r
      = Except.ok (List.insertionSort otmLe results) := by
    rw [build_otm_chain]
    rw [hnonempty]
    simp only [Bool.false_eq_true, if_false, hmid, hdtecol, Bool.not_true, ite_false,
      not_true_eq_false]
  have hperm : (List.insertionSort otmLe results).Perm results :=
    List.perm_insertionSort otmLe results
  have he_mem : e ∈ expiries :=
    (mem_dedupFirst _ e).mpr (List.mem_map.mpr ⟨callRow, hcmem, hcexp⟩)
  have hnodup_exp : expiries.Nodup := nodup_dedupFirst _
  set group := chain.rows.filter (fun q => decide (q.expiry = e)) with hgroupdef
  have hgroup_sub : ∀ q ∈ group, q ∈ chain.rows ∧ q.expiry = e := by
    intro q hq
    have h1 := List.mem_of_mem_filter hq
    have h2 := List.of_mem_filter hq
    simp only [decide_eq_true_eq] at h2
    exact ⟨h1, h2⟩
  have hcgroup : callRow ∈ group := List.mem_filter.mpr ⟨hcmem, by simp [hcexp]⟩
  have hpgroup : putRow ∈ group := List.mem_filter.mpr ⟨hpmem, by simp [hpexp]⟩
  have hgroup_nodup : group.Nodup := hnodup.filter _
  have hne_group : group ≠ [] := by
    intro h
    rw [h] at hpgroup
    exact List.not_mem_nil _ hpgroup
  obtain ⟨q0, hq0⟩ : ∃ q0, group.head? = some q0 := by
    cases hg : group with
    | nil => exact absurd hg hne_group
    | cons a t => exact ⟨a, rfl⟩
  have hq0mem : q0 ∈ group := by
    have : q0 ∈ group.head? := by rw [hq0]; rfl
    exact List.mem_of_mem_head? this
  have hq0dte : q0.dte = d := hdte_all q0 (hgroup_sub q0 hq0mem).1 (hgroup_sub q0 hq0mem).2
  set c : α := putRow.mid + spot - K * exp_fn (-(r * ((d : α) / 365))) with hcdef
  set g : OptionRow α → Option (OtmRow α) := fun q =>
    if 0 < q.mid + spot - q.strike * exp_fn (-(r * ((q0.dte : α) / 365)))
    then some (⟨e, q.strike,
      q.mid + spot - q.strike * exp_fn (-(r * ((q0.dte : α) / 365))),
      OtmSource.put_synthetic⟩ : OtmRow α)
    else none with hgdef
  set otm_calls := group.filter
    (fun q => decide (q.right = OptRight.call ∧ spot < q.strike)) with hocdef
  set call_rows := otm_calls.map
    (fun q => (⟨e, q.strike, q.mid, OtmSource.call⟩ : OtmRow α)) with hcrdef
  set otm_puts := group.filter
    (fun q => decide (q.right = OptRight.put ∧ q.strike < spot)) with hopdef
  set atm_calls := group.filter
    (fun q => decide (q.right = OptRight.call ∧ spot * (99 / 100) ≤ q.strike ∧
      q.strike ≤ spot * (101 / 100))) with hacdef
  have hfe : f e = atm_fold e atm_calls (call_rows ++ otm_puts.filterMap g) := by
    show build_otm_expiry exp_fn spot r e group = _
    rw [build_otm_expiry, hq0]
  have hgput : g putRow = some ⟨e, K, c, OtmSource.put_synthetic⟩ := by
    rw [hgdef]
    simp only [hpK, hq0dte]
    rw [if_pos hcpos]
  have hput_mem : putRow ∈ otm_puts := by
    rw [hopdef]
    refine List.mem_filter.mpr ⟨hpgroup, ?_⟩
    simp [hpright, hpK, hKlt]
  have hotm_puts_nodup : otm_puts.Nodup := hgroup_nodup.filter _
  have hgzero : ∀ q ∈ otm_puts, q ≠ putRow → ∀ w, g q = some w → pK w = false := by
    intro q hq hqne w hgq
    have hqgrp := hgroup_sub q (List.mem_of_mem_filter hq)
    have hqput : q.right = OptRight.put := by
      have := List.of_mem_filter hq
      simp only [decide_eq_true_eq] at this
      exact this.1
    simp only [hgdef] at hgq
    by_cases hcnd : 0 < q.mid + spot - q.strike * exp_fn (-(r * ((q0.dte : α) / 365)))
    · rw [if_pos hcnd] at hgq
      cases hgq
      simp only [hpKdef, decide_eq_false_iff_not]
      rintro ⟨-, hKq⟩
      rcases honly q hqgrp.1 hqgrp.2 hKq with rfl | rfl
      · rw [hcright] at hqput; cases hqput
      · exact hqne rfl
    · rw [if_neg hcnd] at hgq
      cases hgq
  have hcall_not : ∀ w ∈ call_rows, pK w = false := by
    intro w hw
    obtain ⟨q, hq, rfl⟩ := List.mem_map.mp hw
    have hqgrp := hgroup_sub q (List.mem_of_mem_filter hq)
    have hqc := List.of_mem_filter hq
    simp only [decide_eq_true_eq] at hqc
    simp only [hpKdef, decide_eq_false_iff_not]
    rintro ⟨-, hKq⟩
    rcases honly q hqgrp.1 hqgrp.2 hKq with rfl | rfl
    · rw [hKq] at hqc
      exact absurd hqc.2 (not_lt.mpr hKlt.le)
    · rw [hpright] at hqc
      cases hqc.1
  have hput_count : (otm_puts.filterMap g).countP pK = 1 := by
    apply countP_filterMap_single g pK putRow ⟨e, K, c, OtmSource.put_synthetic⟩ hgput
      (by simp [hpKdef]) otm_puts hgzero hput_mem hotm_puts_nodup
  have hcall_zero : call_rows.countP pK = 0 :=
    List.countP_eq_zero.mpr (by
      intro w hw
      rw [hcall_not w hw]
      simp)
  have hbase_count : (call_rows ++ otm_puts.filterMap g).countP pK = 1 := by
    rw [List.countP_append, hcall_zero, hput_count]
  have hsynth_base : ∃ u ∈ call_rows ++ otm_puts.filterMap g, u.strike = K :=
    ⟨⟨e, K, c, OtmSource.put_synthetic⟩,
      List.mem_append.mpr (Or.inr (List.mem_filterMap.mpr ⟨putRow, hput_mem, hgput⟩)),
      rfl⟩
  have hpK_strike : ∀ w : OtmRow α, pK w = true → w.strike = K := by
    intro w hw
    simp only [hpKdef, decide_eq_true_eq] at hw
    exact hw.2
  have hfold := atm_fold_preserve e K pK hpK_strike atm_calls
    (call_rows ++ otm_puts.filterMap g) hsynth_base
  have hfe_count : (f e).countP pK = 1 := by
    rw [hfe]
    exact hfold.1.trans hbase_count
  have hother : ∀ e' ∈ expiries, e' ≠ e → (f e').countP pK = 0 := by
    intro e' _ hne
    apply List.countP_eq_zero.mpr
    intro w hw
    have hwe' := build_otm_expiry_mem exp_fn spot r e' _ w hw
    simp only [hpKdef, decide_eq_true_eq, not_and]
    intro hwe
    rw [hwe'] at hwe
    exact absurd hwe hne
  have hres_count : results.countP pK = 1 := by
    rw [hresultsdef, countP_bind_single expiries f pK e he_mem hnodup_exp hother]
    exact hfe_count
  have hmem_char : ∀ w ∈ results, pK w = true →
      w.mid = c ∧ w.src = OtmSource.put_synthetic := by
    intro w hw hpKw
    obtain ⟨e', he', hwf⟩ := List.mem_bind.mp hw
    have hwe' := build_otm_expiry_mem exp_fn spot r e' _ w hwf
    have hwe : w.expiry = e := by
      simp only [hpKdef, decide_eq_true_eq] at hpKw
      exact hpKw.1
    have he'e : e' = e := by rw [← hwe', hwe]
    subst he'e
    rw [hfe] at hwf
    have hwbase := hfold.2 w hwf hpKw
    rcases List.mem_append.mp hwbase with hwc | hwp
    · rw [hcall_not w hwc] at hpKw
      cases hpKw
    · obtain ⟨q, hq, hgq⟩ := List.mem_filterMap.mp hwp
      by_cases hqput : q = putRow
      · subst hqput
        rw [hgput] at hgq
        cases hgq
        exact ⟨rfl, rfl⟩
      · rw [hgzero q hq hqput w hgq] at hpKw
        cases hpKw
  refine ⟨List.insertionSort otmLe results, hbuild, ?_, ?_⟩
  · rw [hperm.countP_eq pK]
    exact hres_count
  · intro w hw hwe hwK
    have hwres : w ∈ results := hperm.mem_iff.mp hw
    exact hmem_char w hwres (by simp [hpKdef, hwe, hwK])

theorem c3_atm_dedup_amended_witness :
    ∃ res, build_otm_chain Real.exp
      (⟨[⟨30, 199/2, OptRight.call, 99/20, 11/2, 50, 500, 5, 30⟩,
         ⟨30, 199/2, OptRight.put, 3/2, 5/2, 50, 500, 2, 30⟩], true, true⟩ : Frame ℝ)
      100 0 = Except.ok res ∧
      res.countP (fun w => decide (w.expiry = 30 ∧ w.strike = (199 : ℝ)/2)) = 1 ∧
      ∀ w ∈ res, w.expiry = 30 → w.strike = (199 : ℝ)/2 →
        w.mid = 2 + 100 - (199 : ℝ)/2 * Real.exp (-(0 * (((30 : ℤ) : ℝ) / 365))) ∧
        w.src = OtmSource.put_synthetic := by
  apply c3_atm_dedup_amended Real.exp _ 100 0 ((199 : ℝ)/2) 30 30
    ⟨30, 199/2, OptRight.call, 99/20, 11/2, 50, 500, 5, 30⟩
    ⟨30, 199/2, OptRight.put, 3/2, 5/2, 50, 500, 2, 30⟩
    rfl rfl
  · refine List.nodup_cons.mpr ⟨?_, List.nodup_singleton _⟩
    intro h
    simp only [List.mem_singleton, OptionRow.mk.injEq] at h
    norm_num at h
  · simp
  · simp
  · rfl
  · rfl
  · rfl
  · rfl
  · rfl
  · rfl
  · intro q hq hqe hqK
    simp only [List.mem_cons, List.not_mem_nil, or_false] at hq
    rcases hq with rfl | rfl
    · exact Or.inl rfl
    · exact Or.inr rfl
  · intro q hq hqe
    simp only [List.mem_cons, List.not_mem_nil, or_false] at hq
    rcases hq with rfl | rfl <;> rfl
  · norm_num
  · norm_num
  · norm_num [Real.exp_zero]

/-- C4 failing input: 30 OTM rows (15 calls, 15 synthetic puts) at strikes
1..30 with spot 10. The gap sub-score `max(0, 1 - (max_gap - 5)/45)` is
`49/45 > 1` because the cap at 1 promised by the code's own comment
("1 if gap < 5") is missing, and the combined quality score is
`229/225 > 1`, contradicting the documented range `[0, 1]`. -/
theorem c4_quality_score_exceeds_one :
    (⟨30, 30, 30, 15, 15,
      [1, 2, 3, 4, 5, 6, 7, 8, 9, 10, 11, 12, 13, 14, 15, 16, 17, 18, 19, 20,
       21, 22, 23, 24, 25, 26, 27, 28, 29, 30], 10⟩ :
        ChainQualityMetrics ℚ).max_strike_gap = 1 ∧
    (⟨30, 30, 30, 15, 15,
      [1, 2, 3, 4, 5, 6, 7, 8, 9, 10, 11, 12, 13, 14, 15, 16, 17, 18, 19, 20,
       21, 22, 23, 24, 25, 26, 27, 28, 29, 30], 10⟩ :
        ChainQualityMetrics ℚ).quality_score = 229 / 225 ∧
    1 < (⟨30, 30, 30, 15, 15,
      [1, 2, 3, 4, 5, 6, 7, 8, 9, 10, 11, 12, 13, 14, 15, 16, 17, 18, 19, 20,
       21, 22, 23, 24, 25, 26, 27, 28, 29, 30], 10⟩ :
        ChainQualityMetrics ℚ).quality_score := by
  have hgap : (⟨30, 30, 30, 15, 15,
      [1, 2, 3, 4, 5, 6, 7, 8, 9, 10, 11, 12, 13, 14, 15, 16, 17, 18, 19, 20,
       21, 22, 23, 24, 25, 26, 27, 28, 29, 30], 10⟩ :
        ChainQualityMetrics ℚ).max_strike_gap = 1 := by
    norm_num [ChainQualityMetrics.max_strike_gap, List.insertionSort,
      List.orderedInsert, diffs, nmax]
  refine ⟨hgap, ?_, ?_⟩ <;>
    norm_num [ChainQualityMetrics.quality_score, ChainQualityMetrics.strike_coverage,
      hgap, nmax, nmin]

lemma assignCol_not_aliased (f : Frame α → Frame α) (s : PdState α)
    (h : s.aliased = false) :
    (assignCol f s).chain = s.chain ∧ (assignCol f s).aliased = false := by
  simp [assignCol, h]

/-- C9: both `clean` and `build_otm_chain` leave the caller's frame unchanged —
every in-place column write happens after `chain.copy()`, on a non-aliased
frame — while `clean` (with a trade date) does materialise `mid` and `dte` on
the frame it returns. -/
theorem c9_clean_build_otm_preserve_input (cfg : CleanCfg α)
    (trade_date : Option ℤ) (td : ℤ) (chain : Frame α) :
    (cleanState cfg trade_date chain).chain = chain ∧
    (buildOtmState chain).chain = chain ∧
    (chain.rows.isEmpty = false →
      (ChainCleaner.clean cfg chain (some td)).hasMid = true ∧
      (ChainCleaner.clean cfg chain (some td)).hasDte = true) := by
  refine ⟨?_, ?_, ?_⟩
  · by_cases hemp : chain.rows.isEmpty
    · rw [cleanState, if_pos hemp]
    · cases trade_date with
      | none =>
        rw [cleanState, if_neg hemp]
        dsimp only
        split_ifs <;> simp [assignCol, rebindDf]
      | some td' =>
        rw [cleanState, if_neg hemp]
        dsimp only
        split_ifs <;> simp [assignCol, rebindDf]
  · by_cases hemp : chain.rows.isEmpty
    · rw [buildOtmState, if_pos hemp]
    · rw [buildOtmState, if_neg hemp]
      dsimp only
      split_ifs <;> simp [assignCol]
  · intro hne
    rw [ChainCleaner.clean, cleanState, hne]
    simp only [Bool.false_eq_true, if_false]
    dsimp only
    constructor <;>
      · split_ifs <;>
          simp_all [assignCol, rebindDf, midFill, validFilter, volumeFilter,
            oiFilter, spreadFilter, dteAssign, dteFilter]

theorem c9_clean_build_otm_preserve_input_witness :
    (ChainCleaner.clean (⟨10, 100, 1/5, 1, 365⟩ : CleanCfg ℚ)
      ⟨[⟨30, 50, OptRight.call, 1, 2, 50, 500, 0, 0⟩], false, false⟩
      (some 0)).hasMid = true ∧
    (ChainCleaner.clean (⟨10, 100, 1/5, 1, 365⟩ : CleanCfg ℚ)
      ⟨[⟨30, 50, OptRight.call, 1, 2, 50, 500, 0, 0⟩], false, false⟩
      (some 0)).hasDte = true :=
  (c9_clean_build_otm_preserve_input (⟨10, 100, 1/5, 1, 365⟩ : CleanCfg ℚ)
    (some 0) 0 ⟨[⟨30, 50, OptRight.call, 1, 2, 50, 500, 0, 0⟩], false, false⟩).2.2 rfl

/-- C5: the pipeline fails (`success = false`) exactly when zero RNDResults
were produced; an empty client chain yields the single error
`"Empty chain returned"`; and a per-expiry smoother failure is recorded as
`"{expiry}: {reason}"` (whenever the run reports its accumulated errors, i.e.
some expiry produced an RND) while every other expiry's contribution is
untouched: the result list is exactly the per-expiry `filterMap`, each entry
depending only on its own expiry's processing. -/
theorem c5_pipeline_error_policy
    (fit : List (OtmRow α) → Except String (SmoothingResult α))
    (arb : SmoothingResult α → Bool × ℕ)
    (exp_fn log_fn sqrt_fn : α → α) (cfg : CleanCfg α) (r : α) (num_points : ℕ)
    (client_spot spot_param : Option α) (trade_date : ℤ) :
    (∀ chain : Frame α, chain.rows = [] →
      RNDPipeline.run fit arb exp_fn log_fn sqrt_fn cfg r num_points
        (Except.ok chain) client_spot spot_param trade_date
        = errorResult "Empty chain returned") ∧
    (∀ chainRes : Except String (Frame α),
      (RNDPipeline.run fit arb exp_fn log_fn sqrt_fn cfg r num_points
          chainRes client_spot spot_param trade_date).success = false ↔
        (RNDPipeline.run fit arb exp_fn log_fn sqrt_fn cfg r num_points
          chainRes client_spot spot_param trade_date).rnd_results = []) ∧
    (∀ (chain : Frame α) (otm : List (OtmRow α)),
      chain.rows.isEmpty = false →
      (ChainCleaner.clean cfg chain (some trade_date)).rows.isEmpty = false →
      build_otm_chain exp_fn (ChainCleaner.clean cfg chain (some trade_date))
        (spot_param.getD (client_spot.getD (medianStrike chain.rows))) r
        = Except.ok otm →
      otm.isEmpty = false →
      (RNDPipeline.run fit arb exp_fn log_fn sqrt_fn cfg r num_points
          (Except.ok chain) client_spot spot_param trade_date).rnd_results
        = (sortedExpiries otm).filterMap
            (fun e => (processExpiry fit arb exp_fn log_fn sqrt_fn r num_points
              trade_date otm e).2.2) ∧
      ∀ e ∈ sortedExpiries otm, ∀ msg : String,
        10 ≤ (otm.filter (fun w => decide (w.expiry = e))).length →
        fit (otm.filter (fun w => decide (w.expiry = e))) = Except.error msg →
        (sortedExpiries otm).filterMap
            (fun e' => (processExpiry fit arb exp_fn log_fn sqrt_fn r num_points
              trade_date otm e').2.2) ≠ [] →
        s!"{e}: {msg}" ∈ (RNDPipeline.run fit arb exp_fn log_fn sqrt_fn cfg r
          num_points (Except.ok chain) client_spot spot_param trade_date).errors) := by
  refine ⟨?_, ?_, ?_⟩
  · intro chain h
    simp [RNDPipeline.run, h]
  · intro chainRes
    cases chainRes with
    | error msg => simp [RNDPipeline.run, errorResult]
    | ok chain =>
      by_cases h1 : chain.rows.isEmpty
      · simp [RNDPipeline.run, h1, errorResult]
      · simp only [RNDPipeline.run, h1, Bool.false_eq_true, if_false]
        by_cases h2 : (ChainCleaner.clean cfg chain (some trade_date)).rows.isEmpty
        · simp [h2, errorResult]
        · simp only [h2, Bool.false_eq_true, if_false]
          cases hb : build_otm_chain exp_fn (ChainCleaner.clean cfg chain (some trade_date))
            (spot_param.getD (client_spot.getD (medianStrike chain.rows))) r with
          | error msg => simp [errorResult]
          | ok otm =>
            by_cases h3 : otm.isEmpty
            · simp [h3, errorResult]
            · simp only [h3, Bool.false_eq_true, if_false]
              by_cases h4 : ((sortedExpiries otm).filterMap
                  (fun e => (processExpiry fit arb exp_fn log_fn sqrt_fn r num_points
                    trade_date otm e).2.2)).isEmpty
              · simp [h4, errorResult]
              · simp only [h4, Bool.false_eq_true, if_false]
                constructor
                · intro h
                  cases h
                · intro h
                  rw [List.isEmpty_iff] at h4
                  exact absurd h h4
  · intro chain otm h1 h2 hb h3
    have hrun : RNDPipeline.run fit arb exp_fn log_fn sqrt_fn cfg r num_points
        (Except.ok chain) client_spot spot_param trade_date
        = (if ((sortedExpiries otm).filterMap
              (fun e => (processExpiry fit arb exp_fn log_fn sqrt_fn r num_points
                trade_date otm e).2.2)).isEmpty
           then errorResult "No RNDs extracted"
           else ⟨(sortedExpiries otm).filterMap
              (fun e => (processExpiry fit arb exp_fn log_fn sqrt_fn r num_points
                trade_date otm e).2.2),
              (sortedExpiries otm).filterMap
                (fun e => (processExpiry fit arb exp_fn log_fn sqrt_fn r num_points
                  trade_date otm e).2.1),
              ((sortedExpiries otm).filterMap
                (fun e => (processExpiry fit arb exp_fn log_fn sqrt_fn r num_points
                  trade_date otm e).2.2)).length,
              true,
              (sortedExpiries otm).bind
                (fun e => (processExpiry fit arb exp_fn log_fn sqrt_fn r num_points
                  trade_date otm e).1)⟩) := by
      simp only [RNDPipeline.run, h1, h2, hb, h3, Bool.false_eq_true, if_false]
    constructor
    · rw [hrun]
      by_cases h4 : ((sortedExpiries otm).filterMap
          (fun e => (processExpiry fit arb exp_fn log_fn sqrt_fn r num_points
            trade_date otm e).2.2)).isEmpty
      · rw [if_pos h4]
        rw [List.isEmpty_iff] at h4
        rw [h4]
        rfl
      · rw [if_neg h4]
    · intro e he msg hlen hfit hne
      rw [hrun, if_neg (by
        intro hcontra
        rw [List.isEmpty_iff] at hcontra
        exact hne hcontra)]
      show s!"{e}: {msg}" ∈ (sortedExpiries otm).bind
        (fun e' => (processExpiry fit arb exp_fn log_fn sqrt_fn r num_points
          trade_date otm e').1)
      apply List.mem_bind.mpr
      refine ⟨e, he, ?_⟩
      rw [processExpiry]
      simp only [if_neg (Nat.not_lt.mpr hlen), hfit]
      exact List.mem_singleton.mpr rfl

theorem c5_pipeline_error_policy_witness :
    (RNDPipeline.run c5fit c5arb (fun v : ℚ => v) (fun v => v) (fun v => v) c5cfg 0 0
        (Except.ok c5chain) none (some 100) 0).rnd_results
      = (sortedExpiries c5otm).filterMap
          (fun e => (processExpiry c5fit c5arb (fun v : ℚ => v) (fun v => v) (fun v => v)
            0 0 0 c5otm e).2.2) ∧
    s!"{(200 : ℤ)}: boom" ∈ (RNDPipeline.run c5fit c5arb (fun v : ℚ => v) (fun v => v)
        (fun v => v) c5cfg 0 0 (Except.ok c5chain) none (some 100) 0).errors := by
  have hclean : ChainCleaner.clean c5cfg c5chain (some 0)
      = ⟨[c5crow 100 101, c5crow 100 102, c5crow 100 103, c5crow 100 104, c5crow 100 105,
          c5crow 100 106, c5crow 100 107, c5crow 100 108, c5crow 100 109, c5crow 100 110,
          c5crow 200 101, c5crow 200 102, c5crow 200 103, c5crow 200 104, c5crow 200 105,
          c5crow 200 106, c5crow 200 107, c5crow 200 108, c5crow 200 109, c5crow 200 110],
         true, true⟩ := by
    norm_num [ChainCleaner.clean, cleanState, c5cfg, c5chain, c5row, c5crow, rebindDf,
      assignCol, midFill, validFilter, volumeFilter, oiFilter, spreadFilter, dteAssign,
      dteFilter, computeMid, List.filter]
  have hb : build_otm_chain (fun v : ℚ => v) (ChainCleaner.clean c5cfg c5chain (some 0))
      (Option.getD (some 100) (Option.getD none (medianStrike c5chain.rows))) 0
      = Except.ok c5otm := by
    rw [hclean]
    norm_num [build_otm_chain, build_otm_expiry, dedupFirst, atm_fold, c5crow, c5otm,
      c5orow, List.insertionSort, List.orderedInsert, otmLe, List.filter, List.filterMap,
      List.isEmpty, List.bind]
  have hT : ¬(((100 - 0 : ℤ) : ℚ) / 365 ≤ 0) := by norm_num
  obtain ⟨x, hex⟩ : ∃ x, RNDExtractor.extract (fun v : ℚ => v) (fun v => v) (fun v => v)
      0 0 c5sm 100 0 = Except.ok x :=
    ⟨_, by simp only [RNDExtractor.extract]; rw [if_neg hT]⟩
  have hdata : List.filter (fun w => decide (w.expiry = (100 : ℤ))) c5otm
      = [c5orow 100 101, c5orow 100 102, c5orow 100 103, c5orow 100 104, c5orow 100 105,
         c5orow 100 106, c5orow 100 107, c5orow 100 108, c5orow 100 109, c5orow 100 110] := by
    norm_num [c5otm, c5orow, List.filter]
  have hdata200 : List.filter (fun w => decide (w.expiry = (200 : ℤ))) c5otm
      = [c5orow 200 101, c5orow 200 102, c5orow 200 103, c5orow 200 104, c5orow 200 105,
         c5orow 200 106, c5orow 200 107, c5orow 200 108, c5orow 200 109, c5orow 200 110] := by
    norm_num [c5otm, c5orow, List.filter]
  have hfit100 : c5fit [c5orow 100 101, c5orow 100 102, c5orow 100 103, c5orow 100 104,
      c5orow 100 105, c5orow 100 106, c5orow 100 107, c5orow 100 108, c5orow 100 109,
      c5orow 100 110] = Except.ok c5sm := rfl
  have hstep : (processExpiry c5fit c5arb (fun v : ℚ => v) (fun v => v) (fun v => v)
      0 0 0 c5otm 100).2.2 = some x := by
    simp only [processExpiry, hdata, hfit100, List.length_cons, List.length_nil, c5arb]
    norm_num [hex]
  have hsorted : sortedExpiries c5otm = [100, 200] := by
    norm_num [sortedExpiries, c5otm, c5orow, dedupFirst, List.insertionSort,
      List.orderedInsert]
  have hne : (sortedExpiries c5otm).filterMap
      (fun e' => (processExpiry c5fit c5arb (fun v : ℚ => v) (fun v => v) (fun v => v)
        0 0 0 c5otm e').2.2) ≠ [] := by
    rw [hsorted]
    intro hcontra
    simp only [List.filterMap_cons] at hcontra
    rw [hstep] at hcontra
    simp at hcontra
  have h := (c5_pipeline_error_policy c5fit c5arb (fun v : ℚ => v) (fun v => v)
      (fun v => v) c5cfg 0 0 none (some 100) 0).2.2 c5chain c5otm rfl
    (by rw [hclean]; rfl) hb rfl
  refine ⟨h.1, h.2 200 ?_ "boom" ?_ ?_ hne⟩
  · rw [hsorted]
    simp
  · rw [hdata200]
    norm_num
  · rw [hdata200]
    rfl

lemma nmax_eq {β : Type} [LinearOrder β] (l : List β) (dflt x : β)
    (hx : x ∈ l) (hall : ∀ t ∈ l, t ≤ x) : nmax dflt l = x := by
  cases l with
  | nil => cases hx
  | cons a t =>
    rw [nmax]
    have haux : ∀ (t' : List β) (acc : β), (x ∈ t' ∨ acc = x) → acc ≤ x →
        (∀ u ∈ t', u ≤ x) → t'.foldl max acc = x := by
      intro t'
      induction t' with
      | nil =>
        intro acc hor hacc _
        rcases hor with h | h
        · cases h
        · exact h
      | cons u t'' ih =>
        intro acc hor hacc hall'
        rw [List.foldl_cons]
        have hu : u ≤ x := hall' u (List.mem_cons_self u t'')
        have hrest : ∀ v ∈ t'', v ≤ x := fun v hv => hall' v (List.mem_cons_of_mem u hv)
        rcases hor with h | h
        · rcases List.mem_cons.mp h with rfl | h'
          · exact ih (max acc x) (Or.inr (max_eq_right hacc)) (le_of_eq (max_eq_right hacc))
              hrest
          · exact ih (max acc u) (Or.inl h') (max_le hacc hu) hrest
        · subst h
          exact ih (max acc u) (Or.inr (max_eq_left hu)) (le_of_eq (max_eq_left hu)) hrest
    rcases List.mem_cons.mp hx with rfl | hxt
    · exact haux t x (Or.inr rfl) le_rfl (fun v hv => hall v (List.mem_cons_of_mem x hv))
    · exact haux t a (Or.inl hxt) (hall a (List.mem_cons_self a t))
        (fun v hv => hall v (List.mem_cons_of_mem a hv))

lemma nmin_eq {β : Type} [LinearOrder β] (l : List β) (dflt x : β)
    (hx : x ∈ l) (hall : ∀ t ∈ l, x ≤ t) : nmin dflt l = x := by
  cases l with
  | nil => cases hx
  | cons a t =>
    rw [nmin]
    have haux : ∀ (t' : List β) (acc : β), (x ∈ t' ∨ acc = x) → x ≤ acc →
        (∀ u ∈ t', x ≤ u) → t'.foldl min acc = x := by
      intro t'
      induction t' with
      | nil =>
        intro acc hor hacc _
        rcases hor with h | h
        · cases h
        · exact h
      | cons u t'' ih =>
        intro acc hor hacc hall'
        rw [List.foldl_cons]
        have hu : x ≤ u := hall' u (List.mem_cons_self u t'')
        have hrest : ∀ v ∈ t'', x ≤ v := fun v hv => hall' v (List.mem_cons_of_mem u hv)
        rcases hor with h | h
        · rcases List.mem_cons.mp h with rfl | h'
          · exact ih (min acc x) (Or.inr (min_eq_right hacc)) (le_of_eq (min_eq_right hacc).symm)
              hrest
          · exact ih (min acc u) (Or.inl h') (le_min hacc hu) hrest
        · subst h
          exact ih (min acc u) (Or.inr (min_eq_left hu)) (le_of_eq (min_eq_left hu).symm) hrest
    rcases List.mem_cons.mp hx with rfl | hxt
    · exact haux t x (Or.inr rfl) le_rfl (fun v hv => hall v (List.mem_cons_of_mem x hv))
    · exact haux t a (Or.inl hxt) (hall a (List.mem_cons_self a t))
        (fun v hv => hall v (List.mem_cons_of_mem a hv))

lemma head?_of_min (D : List ℤ) (hsort : D.Sorted (· ≤ ·)) (lo : ℤ)
    (hmem : lo ∈ D) (hmin : ∀ t ∈ D, lo ≤ t) : D.head? = some lo := by
  cases D with
  | nil => cases hmem
  | cons a t =>
    have ha_le : a ≤ lo := by
      rcases List.mem_cons.mp hmem with rfl | h
      · exact le_rfl
      · exact (List.sorted_cons.mp hsort).1 lo h
    have hlo_le : lo ≤ a := hmin a (List.mem_cons_self a t)
    rw [List.head?_cons, le_antisymm ha_le hlo_le]

lemma getLast?_of_max (D : List ℤ) (hsort : D.Sorted (· ≤ ·)) (hi : ℤ)
    (hmem : hi ∈ D) (hmax : ∀ t ∈ D, t ≤ hi) : D.getLast? = some hi := by
  cases D with
  | nil => cases hmem
  | cons a t =>
    induction t generalizing a with
    | nil =>
      have : a = hi := le_antisymm (hmax a (List.mem_cons_self a []))
        (by rcases List.mem_cons.mp hmem with rfl | h
            · exact le_rfl
            · cases h)
      rw [this]
      rfl
    | cons b t' ih =>
      have hsort' : (b :: t').Sorted (· ≤ ·) := (List.sorted_cons.mp hsort).2
      have hmem' : hi ∈ b :: t' := by
        rcases List.mem_cons.mp hmem with rfl | h
        · have hb_le : b ≤ hi := hmax b (List.mem_cons_of_mem _ (List.mem_cons_self b t'))
          have hhib : hi ≤ b := (List.sorted_cons.mp hsort).1 b (List.mem_cons_self b t')
          rw [le_antisymm hhib hb_le]
          exact List.mem_cons_self b t'
        · exact h
      have hmax' : ∀ t ∈ b :: t', t ≤ hi :=
        fun u hu => hmax u (List.mem_cons_of_mem _ hu)
      rw [List.getLast?_cons_cons]
      exact ih b hsort' hmem' hmax'

lemma sorted_head?_le (D : List ℤ) (hsort : D.Sorted (· ≤ ·)) (a : ℤ)
    (h : D.head? = some a) : ∀ t ∈ D, a ≤ t := by
  cases D with
  | nil => cases h
  | cons b t =>
    rw [List.head?_cons, Option.some.injEq] at h
    subst h
    intro u hu
    rcases List.mem_cons.mp hu with rfl | hu
    · exact le_rfl
    · exact (List.sorted_cons.mp hsort).1 u hu

lemma sorted_le_getLast? (D : List ℤ) (hsort : D.Sorted (· ≤ ·)) (b : ℤ)
    (h : D.getLast? = some b) : ∀ t ∈ D, t ≤ b := by
  cases D with
  | nil => cases h
  | cons a t =>
    induction t generalizing a with
    | nil =>
      rw [List.getLast?_singleton, Option.some.injEq] at h
      subst h
      intro u hu
      rcases List.mem_cons.mp hu with rfl | hu
      · exact le_rfl
      · cases hu
    | cons c t' ih =>
      rw [List.getLast?_cons_cons] at h
      have hsort' : (c :: t').Sorted (· ≤ ·) := (List.sorted_cons.mp hsort).2
      have htail := ih c hsort' h
      intro u hu
      rcases List.mem_cons.mp hu with rfl | hu
      · exact ((List.sorted_cons.mp hsort).1 c (List.mem_cons_self c t')).trans
          (htail c (List.mem_cons_self c t'))
      · exact htail u hu

end Proofs

section SurfaceProofs

variable {α : Type} [LinearOrderedField α] [FloorRing α]

/-- C8: the surface's density column at a target DTE `d` copies the earliest
expiry's density (interpolated onto the common grid) when `d` is at or below
the smallest actual DTE, copies the latest expiry's when `d` is at or above
the largest, and otherwise is the linear blend of the two bracketing
expiries with weight `(d - D_lo) / (D_hi - D_lo)` on the common grid. -/
theorem c8_surface_column_interpolation (rnds : List (RNDResult α))
    (grid : List α) (d : α) :
    (∀ (lo : ℤ) (rl : RNDResult α), lo ∈ actual_dtes rnds →
      (∀ t ∈ actual_dtes rnds, lo ≤ t) → d ≤ (lo : α) →
      rnd_by_dte rnds lo = some rl →
      surfaceColumn rnds grid d = interp_density grid rl) ∧
    (∀ (hi : ℤ) (rh : RNDResult α), hi ∈ actual_dtes rnds →
      (∀ t ∈ actual_dtes rnds, t ≤ hi) → (hi : α) ≤ d →
      rnd_by_dte rnds hi = some rh →
      surfaceColumn rnds grid d = interp_density grid rh) ∧
    (∀ (lo hi : ℤ) (rl rh : RNDResult α),
      lo ∈ actual_dtes rnds → hi ∈ actual_dtes rnds →
      (lo : α) < d → d < (hi : α) →
      (∀ t ∈ actual_dtes rnds, (t : α) ≤ d → t ≤ lo) →
      (∀ t ∈ actual_dtes rnds, d ≤ (t : α) → hi ≤ t) →
      rnd_by_dte rnds lo = some rl → rnd_by_dte rnds hi = some rh →
      surfaceColumn rnds grid d
        = List.zipWith
            (fun zl zh => (1 - (d - (lo : α)) / ((hi : α) - (lo : α))) * zl
              + (d - (lo : α)) / ((hi : α) - (lo : α)) * zh)
            (interp_density grid rl) (interp_density grid rh)) := by
  have hsort : (actual_dtes rnds).Sorted (· ≤ ·) := by
    rw [actual_dtes]
    exact List.sorted_insertionSort _ _
  have hlast_ex : ∀ x : ℤ, x ∈ actual_dtes rnds →
      ∃ b, (actual_dtes rnds).getLast? = some b := by
    intro x hx
    have hne : actual_dtes rnds ≠ [] := by
      intro h
      rw [h] at hx
      cases hx
    exact Option.isSome_iff_exists.mp (List.getLast?_isSome.mpr hne)
  have hhead_ex : ∀ x : ℤ, x ∈ actual_dtes rnds →
      ∃ a, (actual_dtes rnds).head? = some a := by
    intro x hx
    cases hA : actual_dtes rnds with
    | nil => rw [hA] at hx; cases hx
    | cons a t => exact ⟨a, rfl⟩
  refine ⟨?_, ?_, ?_⟩
  · intro lo rl hmem hmin hd hlook
    have hhead := head?_of_min _ hsort lo hmem hmin
    obtain ⟨hiN, hlast⟩ := hlast_ex lo hmem
    simp only [surfaceColumn, hhead, hlast]
    rw [if_pos hd]
    simp only [hlook]
  · intro hi rh hmem hmax hd hlook
    have hlast := getLast?_of_max _ hsort hi hmem hmax
    obtain ⟨lo0, hhead⟩ := hhead_ex hi hmem
    have hlo0mem : lo0 ∈ actual_dtes rnds :=
      List.mem_of_mem_head? (by rw [hhead]; rfl)
    simp only [surfaceColumn, hhead, hlast]
    by_cases hcase : d ≤ (lo0 : α)
    · rw [if_pos hcase]
      have h1 : lo0 ≤ hi := hmax lo0 hlo0mem
      have h2 : hi ≤ lo0 := by
        have hc : (hi : α) ≤ (lo0 : α) := le_trans hd hcase
        exact_mod_cast hc
      rw [le_antisymm h1 h2]
      simp only [hlook]
    · rw [if_neg hcase, if_pos hd]
      simp only [hlook]
  · intro lo hi rl rh hlomem hhimem hlod hdhi hlomax hhimin hlookl hlookr
    obtain ⟨lo0, hhead⟩ := hhead_ex lo hlomem
    obtain ⟨hiN, hlast⟩ := hlast_ex lo hlomem
    have hlo0_le : ∀ t ∈ actual_dtes rnds, lo0 ≤ t :=
      sorted_head?_le _ hsort lo0 hhead
    have hle_hiN : ∀ t ∈ actual_dtes rnds, t ≤ hiN :=
      sorted_le_getLast? _ hsort hiN hlast
    have hnot1 : ¬(d ≤ (lo0 : α)) := by
      have h1 : lo0 ≤ lo := hlo0_le lo hlomem
      have hc : (lo0 : α) ≤ (lo : α) := by exact_mod_cast h1
      exact not_le.mpr (lt_of_le_of_lt hc hlod)
    have hnot2 : ¬((hiN : α) ≤ d) := by
      have h1 : hi ≤ hiN := hle_hiN hi hhimem
      have hc : (hi : α) ≤ (hiN : α) := by exact_mod_cast h1
      exact not_le.mpr (lt_of_lt_of_le hdhi hc)
    have hlower : nmax (0 : ℤ)
        ((actual_dtes rnds).filter (fun t => decide ((t : α) ≤ d))) = lo := by
      apply nmax_eq
      · exact List.mem_filter.mpr ⟨hlomem, by simp [hlod.le]⟩
      · intro t ht
        have h := List.mem_filter.mp ht
        exact hlomax t h.1 (by simpa using h.2)
    have hupper : nmin (0 : ℤ)
        ((actual_dtes rnds).filter (fun t => decide (d ≤ (t : α)))) = hi := by
      apply nmin_eq
      · exact List.mem_filter.mpr ⟨hhimem, by simp [hdhi.le]⟩
      · intro t ht
        have h := List.mem_filter.mp ht
        exact hhimin t h.1 (by simpa using h.2)
    have hne_int : lo ≠ hi := by
      have : (lo : α) < (hi : α) := lt_trans hlod hdhi
      exact ne_of_lt (by exact_mod_cast this)
    simp only [surfaceColumn, hhead, hlast]
    rw [if_neg hnot1, if_neg hnot2]
    rw [hlower, hupper, if_neg hne_int]
    simp only [hlookl, hlookr]

theorem c8_surface_column_interpolation_witness :
    surfaceColumn [c8r1, c8r2] [0, 1] (0 : ℚ) = interp_density [0, 1] c8r1 ∧
    surfaceColumn [c8r1, c8r2] [0, 1] (10000 : ℚ) = interp_density [0, 1] c8r2 ∧
    surfaceColumn [c8r1, c8r2] [0, 1] (5475 : ℚ)
      = List.zipWith
          (fun zl zh => (1 - ((5475 : ℚ) - ((3650 : ℤ) : ℚ))
              / (((7300 : ℤ) : ℚ) - ((3650 : ℤ) : ℚ))) * zl
            + ((5475 : ℚ) - ((3650 : ℤ) : ℚ))
              / (((7300 : ℤ) : ℚ) - ((3650 : ℤ) : ℚ)) * zh)
          (interp_density [0, 1] c8r1) (interp_density [0, 1] c8r2) := by
  have hdtes : actual_dtes [c8r1, c8r2] = [3650, 7300] := by
    norm_num [actual_dtes, pyInt, c8r1, c8r2, dedupFirst, List.insertionSort,
      List.orderedInsert]
  have hlook1 : rnd_by_dte [c8r1, c8r2] 3650 = some c8r1 := by
    norm_num [rnd_by_dte, pyInt, c8r1, c8r2, List.filter, List.getLast?]
  have hlook2 : rnd_by_dte [c8r1, c8r2] 7300 = some c8r2 := by
    norm_num [rnd_by_dte, pyInt, c8r1, c8r2, List.filter, List.getLast?]
  have h := c8_surface_column_interpolation [c8r1, c8r2] [0, 1]
  refine ⟨?_, ?_, ?_⟩
  · refine (h 0).1 3650 c8r1 ?_ ?_ (by norm_num) hlook1
    · rw [hdtes]; simp
    · intro t ht
      rw [hdtes] at ht
      simp only [List.mem_cons, List.not_mem_nil, or_false] at ht
      rcases ht with rfl | rfl <;> norm_num
  · refine (h 10000).2.1 7300 c8r2 ?_ ?_ (by norm_num) hlook2
    · rw [hdtes]; simp
    · intro t ht
      rw [hdtes] at ht
      simp only [List.mem_cons, List.not_mem_nil, or_false] at ht
      rcases ht with rfl | rfl <;> norm_num
  · refine (h 5475).2.2 3650 7300 c8r1 c8r2 ?_ ?_ (by norm_num) (by norm_num)
      ?_ ?_ hlook1 hlook2
    · rw [hdtes]; simp
    · rw [hdtes]; simp
    · intro t ht htle
      rw [hdtes] at ht
      simp only [List.mem_cons, List.not_mem_nil, or_false] at ht
      rcases ht with rfl | rfl
      · norm_num
      · norm_num at htle
    · intro t ht htle
      rw [hdtes] at ht
      simp only [List.mem_cons, List.not_mem_nil, or_false] at ht
      rcases ht with rfl | rfl
      · norm_num at htle
      · norm_num

end SurfaceProofs

end ESOptions
